import Mathlib

/-!
Verification of the flatland rail environment core: the grid transition
model, the per-tick multi-agent step engine (`rail_env.py`) and the
distance-map / tree observation builder (`env_observation_builder.py`).
The Python source is shallowly embedded below: machine floats for speeds,
position fractions and rewards are modelled with `ℚ` (the source only
uses exact values such as 0, 1 and -1 in the claims at issue), grid
coordinates with `Int` (numpy positions may go negative before the clip
check), and the 16-bit transition masks with `Nat`.
-/

namespace Flatland

/-- Modelled from the spec: the transition map class `GridTransitionMap`
is not part of the covered sources.  Per the spec (section 3), each cell
of a `height × width` grid holds a 16-bit mask where bit
`entryDir * 4 + exitDir` is set iff an agent facing `entryDir` may exit
toward `exitDir`. -/
structure Grid where
  height : Nat
  width : Nat
  mask : Int → Int → Nat

/-- Modelled from the spec: `getTransitions(row, col)` returns the cell's
16-bit mask and rejects out-of-bounds queries by returning an empty mask. -/
def getTransitions16 (g : Grid) (r c : Int) : Nat :=
  if 0 ≤ r ∧ r < (g.height : Int) ∧ 0 ≤ c ∧ c < (g.width : Int) then g.mask r c else 0

/-- Modelled from the spec: `get_transition((r, c, o), d)`, the single
transition bit for entry direction `o` and exit direction `d`. -/
def transBit (g : Grid) (r c : Int) (o d : Nat) : Bool :=
  (getTransitions16 g r c).testBit (o * 4 + d)

/-- `np.count_nonzero(possible_transitions)`: number of legal exits for an
agent at `(r, c)` with orientation `o` (the 4-bit row of the mask). -/
def numTransitions (g : Grid) (r c : Int) (o : Nat) : Nat :=
  (List.range 4).countP (fun d => transBit g r c o d)

/-- `np.argmax` over the 4 exit bits: index of the first set bit
(0 if all four bits are clear, as numpy returns for equal entries). -/
def argmax4 (f : Nat → Bool) : Nat :=
  if f 0 then 0 else if f 1 then 1 else if f 2 then 2 else if f 3 then 3 else 0

/-- `_new_position` / `get_new_position`: fixed compass deltas
N: row-1, E: col+1, S: row+1, W: col-1.  (Python returns `None` for a
movement outside 0..3, which is never exercised; we return `p`.) -/
def newPosition (p : Int × Int) (movement : Nat) : Int × Int :=
  if movement = 0 then (p.1 - 1, p.2)
  else if movement = 1 then (p.1, p.2 + 1)
  else if movement = 2 then (p.1 + 1, p.2)
  else if movement = 3 then (p.1, p.2 - 1)
  else p

/-- The bit-counting loop `while tmp > 0: nbits += tmp & 1; tmp >>= 1`,
made structural on an explicit fuel (calling with fuel = n counts all
bits of n, since the value at least halves each iteration). -/
def popcountGo : Nat → Nat → Nat
  | 0, _ => 0
  | fuel + 1, v => if v = 0 then 0 else v % 2 + popcountGo fuel (v / 2)

/-- Number of set bits of a transition mask (dead-end test: exactly 1). -/
def popcount (n : Nat) : Nat := popcountGo n n

/-- Live agent record (`EnvAgent` fields used by `RailEnv.step`). -/
structure Agent where
  position : Int × Int
  direction : Nat
  target : Int × Int
  moving : Bool
  speed : ℚ
  fraction : ℚ
  transitionAction : Int
  oldPosition : Int × Int
  oldDirection : Nat
deriving DecidableEq

def defaultAgent : Agent := ⟨(0, 0), 0, (0, 0), false, 1, 0, 0, (0, 0), 0⟩

/-- Reward constants of `RailEnv.step`. -/
def alpha : ℚ := 1

def beta : ℚ := 1

def invalidActionPenalty : ℚ := 0

def stepPenalty : ℚ := -1 * alpha

def globalReward : ℚ := 1 * beta

def stopPenalty : ℚ := 0

def startPenalty : ℚ := 0

/-- Missing per-agent actions default to DO_NOTHING (0); action codes with
`action < 0 or action > len(RailEnvActions)` (note: `len(RailEnvActions)`
is 5) are replaced by DO_NOTHING. -/
def coerceAction (o : Option Int) : Int :=
  match o with
  | none => 0
  | some x => if x < 0 ∨ x > 5 then 0 else x

/-- DO_NOTHING while moving is reinterpreted as MOVE_FORWARD (2). -/
def reinterpretDoNothing (action : Int) (moving : Bool) : Int :=
  if action = 0 ∧ moving then 2 else action

/-- `RailEnv.check_action`: returns `(new_direction, transition_isValid)`
where the validity is `none` when not yet decided (Python `None`).
MOVE_LEFT (1) / MOVE_RIGHT (3) rotate the direction (mod 4, Python `%`)
and are invalid when the cell has at most one exit; MOVE_FORWARD (2) in a
cell with exactly one exit takes that only exit (dead end, straight or
curve); any other action leaves the direction and validity undecided. -/
def check_action (g : Grid) (a : Agent) (action : Int) : Nat × Option Bool :=
  if action = 1 then
    ((((a.direction : Int) - 1).emod 4).toNat,
     if numTransitions g a.position.1 a.position.2 a.direction ≤ 1 then some false else none)
  else if action = 3 then
    ((((a.direction : Int) + 1).emod 4).toNat,
     if numTransitions g a.position.1 a.position.2 a.direction ≤ 1 then some false else none)
  else if action = 2 ∧ numTransitions g a.position.1 a.position.2 a.direction = 1 then
    (argmax4 (fun d => transBit g a.position.1 a.position.2 a.direction d), some true)
  else (((a.direction : Int).emod 4).toNat, none)

structure CheckResult where
  cellFree : Bool
  newCellValid : Bool
  newDirection : Nat
  newPosition : Int × Int
  transitionValid : Bool
deriving DecidableEq

/-- `RailEnv._check_action_on_agent`.  The new cell is valid when it equals
its clip to the grid bounds (in-grid test) and has a nonzero mask; the cell
is free when no agent of the live list (the mover included) occupies it. -/
def checkActionOnAgent (g : Grid) (ags : List Agent) (action : Int) (a : Agent) : CheckResult :=
  let ca := check_action g a action
  let nd := ca.1
  let np2 := newPosition a.position nd
  let ncv :=
    decide (np2.1 = min (max np2.1 0) ((g.height : Int) - 1) ∧
            np2.2 = min (max np2.2 0) ((g.width : Int) - 1)) &&
    decide (0 < getTransitions16 g np2.1 np2.2)
  let tv :=
    match ca.2 with
    | some b => b
    | none => transBit g a.position.1 a.position.2 a.direction nd
  let free := !(ags.any (fun b => decide (b.position = np2)))
  ⟨free, ncv, nd, np2, tv⟩

/-- STOP_MOVING only halts an agent exactly on entering a new cell. -/
def stopPhase (a : Agent) (action : Int) : Agent :=
  if action = 4 ∧ a.moving ∧ a.fraction = 0 then { a with moving := false } else a

/-- Any action other than DO_NOTHING / STOP_MOVING starts a stopped agent. -/
def startPhase (a : Agent) (action : Int) : Agent :=
  if ¬a.moving ∧ ¬(action = 0 ∨ action = 4) then { a with moving := true } else a

/-- Lines 248-283 of `rail_env.py`: at a cell boundary, validate the action
and store it as `transition_action_on_cellexit`; an invalid LEFT/RIGHT of a
moving agent falls back to MOVE_FORWARD; if still invalid the agent is
forced to stop and its tick ends (`continue`) — the `Sum.inl` result. -/
def trySelect (g : Grid) (ags : List Agent) (a : Agent) (action : Int) :
    Sum Agent (Agent × Bool) :=
  if a.fraction = 0 ∧ ¬(action = 0 ∨ action = 4) then
    if (checkActionOnAgent g ags action a).newCellValid ∧
       (checkActionOnAgent g ags action a).transitionValid then
      Sum.inr ({ a with transitionAction := action }, true)
    else if (action = 1 ∨ action = 3) ∧ a.moving then
      if (checkActionOnAgent g ags 2 a).newCellValid ∧
         (checkActionOnAgent g ags 2 a).transitionValid then
        Sum.inr ({ a with transitionAction := 2 }, true)
      else Sum.inl { a with moving := false }
    else Sum.inl { a with moving := false }
  else Sum.inr (a, false)

/-- A moving agent with a fresh selection or already mid-transit advances
its position fraction by its speed. -/
def advancePhase (a : Agent) (selected : Bool) : Agent :=
  if a.moving ∧ (selected ∨ 0 < a.fraction) then
    { a with fraction := a.fraction + a.speed }
  else a

/-- Lines 288-300: when the fraction saturates, re-check the stored
cell-exit action and commit it when the destination is valid, the
transition legal and the cell unoccupied. -/
def commitMove (g : Grid) (ags : List Agent) (a : Agent) : Agent :=
  if 1 ≤ a.fraction then
    if (checkActionOnAgent g ags a.transitionAction a).newCellValid ∧
       (checkActionOnAgent g ags a.transitionAction a).transitionValid ∧
       (checkActionOnAgent g ags a.transitionAction a).cellFree then
      { a with position := (checkActionOnAgent g ags a.transitionAction a).newPosition,
               direction := (checkActionOnAgent g ags a.transitionAction a).newDirection,
               fraction := 0 }
    else a
  else a

structure AgentOutcome where
  agent : Agent
  reward : ℚ
  forcedStop : Bool
  doneNow : Bool
deriving DecidableEq

/-- Lines 213-305 of `rail_env.py` for one not-yet-done agent: action
defaulting and coercion, stop/start handling, action selection, fractional
movement, cell-exit commit, and the final done/step-penalty check (skipped
with everything after it on the forced-stop `continue` path). -/
def processAgent (g : Grid) (ags : List Agent) (actOpt : Option Int) (a0 : Agent) :
    AgentOutcome :=
  let action := reinterpretDoNothing (coerceAction actOpt) a0.moving
  let a1 := stopPhase a0 action
  let r1 : ℚ := if action = 4 ∧ a0.moving ∧ a0.fraction = 0 then stopPenalty else 0
  let a2 := startPhase a1 action
  let r2 : ℚ := if ¬a1.moving ∧ ¬(action = 0 ∨ action = 4) then startPenalty else 0
  match trySelect g ags a2 action with
  | Sum.inl b => ⟨b, r1 + r2 + invalidActionPenalty + stopPenalty, true, false⟩
  | Sum.inr (b, selected) =>
    let b2 := advancePhase b selected
    let b3 := commitMove g ags b2
    if b3.position = b3.target then ⟨b3, r1 + r2, false, true⟩
    else ⟨b3, r1 + r2 + stepPenalty * b3.speed, false, false⟩

/-- Mutable state of the per-agent loop of `step`: the live agents, the
per-agent done flags, and the rewards for this tick. -/
structure StepState where
  agents : List Agent
  dones : List Bool
  rewards : List ℚ
deriving DecidableEq

/-- One iteration of the `for iAgent in range(...)` loop of `step`:
`old_direction` / `old_position` are recorded first, agents already done
are skipped, and occupancy checks read the current (partially updated
this tick) agent list. -/
def processOne (g : Grid) (st : StepState) (i : Nat) (actOpt : Option Int) : StepState :=
  let a0 := st.agents.getD i defaultAgent
  let a1 := { a0 with oldDirection := a0.direction, oldPosition := a0.position }
  if st.dones.getD i false then { st with agents := st.agents.set i a1 }
  else
    let o := processAgent g (st.agents.set i a1) actOpt a1
    { agents := st.agents.set i o.agent,
      dones := if o.doneNow then st.dones.set i true else st.dones,
      rewards := st.rewards.set i (st.rewards.getD i 0 + o.reward) }

/-- Environment state mutated by `step` (`dones["__all__"]` is `allDone`). -/
structure EnvState where
  agents : List Agent
  dones : List Bool
  allDone : Bool
deriving DecidableEq

/-- The per-agent loop of `step`, over agent indices `0, 1, ..., n-1`. -/
def stepLoop (g : Grid) (acts : Nat → Option Int) (st : StepState) (n : Nat) : StepState :=
  (List.range n).foldl (fun s i => processOne g s i (acts i)) st

/-- `RailEnv.step`: returns the updated environment state and this tick's
rewards.  If the episode is already globally done, every reward is the
flat global bonus and nothing changes; after the loop, when every agent
sits on its target the episode is marked done and all rewards are
overwritten with the global bonus. -/
def step (g : Grid) (s : EnvState) (acts : Nat → Option Int) : EnvState × List ℚ :=
  let rewards0 : List ℚ := List.replicate s.agents.length 0
  if s.allDone then (s, rewards0.map (fun r => r + globalReward))
  else
    let st := stepLoop g acts ⟨s.agents, s.dones, rewards0⟩ s.agents.length
    if st.agents.all (fun a2 => decide (a2.position = a2.target)) then
      (⟨st.agents, st.dones, true⟩, st.rewards.map (fun r => 0 * r + globalReward))
    else
      (⟨st.agents, st.dones, s.allDone⟩, st.rewards)

/-- Iterated calls to `step` over a list of per-tick action maps. -/
def stepChain (g : Grid) : EnvState → List (Nat → Option Int) → EnvState
  | s, [] => s
  | s, a :: rest => stepChain g (step g s a).1 rest

end Flatland


namespace Flatland

/-! ### Tree observation builder (`TreeObsForRailEnv.get` / `_explore_branch`) -/

/-- Feature values of an observation node: a float, `+inf`, or the `-inf`
padding sentinel. -/
inductive FVal where | fin : ℚ → FVal | pinf : FVal | ninf : FVal
deriving DecidableEq

def boolF (b : Bool) : FVal := FVal.fin (if b then 1 else 0)

/-- Result of the corridor walk of `_explore_branch`: final cell and
direction, the two accumulated flags, and which terminal case ended the
walk (target / dead end / switch; all three false for an empty cell). -/
structure WalkResult where
  position : Int × Int
  direction : Nat
  otherTarget : Bool
  otherAgent : Bool
  isTarget : Bool
  isDeadEnd : Bool
  isSwitch : Bool
deriving DecidableEq

/-- The `while exploring` walk of `_explore_branch`: step cell by cell
along the single legal exit, updating the other-agent / other-target
flags, until the agent's own target, a dead end, a switch or an empty
cell is met.  The source loop has no bound, so the embedding takes fuel;
`none` means the walk has not terminated within `fuel` cells. -/
def exploreWalk (g : Grid) (hasAgent hasTarget : Int × Int → Bool) (target : Int × Int) :
    Nat → Int × Int → Nat → Bool → Bool → Option WalkResult
  | 0, _, _, _, _ => none
  | fuel + 1, pos, dir, oA, oT =>
    let oA2 := oA || hasAgent pos
    let oT2 := oT || hasTarget pos
    if pos = target then some ⟨pos, dir, oT2, oA2, true, false, false⟩
    else
      let num := numTransitions g pos.1 pos.2 dir
      if num = 1 then
        if popcount (getTransitions16 g pos.1 pos.2) = 1 then
          some ⟨pos, dir, oT2, oA2, false, true, false⟩
        else
          let d := argmax4 (fun e => transBit g pos.1 pos.2 dir e)
          exploreWalk g hasAgent hasTarget target fuel (newPosition pos d) d oA2 oT2
      else if 0 < num then some ⟨pos, dir, oT2, oA2, false, false, true⟩
      else some ⟨pos, dir, oT2, oA2, false, false, false⟩

/-- `num_cells_to_fill_in` of the padding loops: the node count of a full
quad-tree over the remaining `k` levels, `4^0 + 4^1 + ... + 4^(k-1)`. -/
def padCount (k : Nat) : Nat := ((List.range k).map (fun i => 4 ^ i)).sum

/-- Padding run emitted for an absent branch: `[-inf] * 5 * padCount k`. -/
def padRun (k : Nat) : List FVal := List.replicate (5 * padCount k) FVal.ninf

/-- numpy integer indexing on an axis of size `n`: indices in `[-n, n)`
are accepted (negative ones wrap by `+ n`), anything else raises
`IndexError`. -/
def npIndex (n : Nat) (i : Int) : Option Int :=
  if 0 ≤ i ∧ i < (n : Int) then some i
  else if -(n : Int) ≤ i ∧ i < 0 then some (i + n) else none

/-- The numpy read `self.distance_map[handle, r, c, dir]` on the array of
shape `(n_agents, height, width, 4)`: `none` models the `IndexError`
raised when the row or column index is outside `[-height, height)` /
`[-width, width)` (a corridor walk can terminate one cell past the grid
edge), and in-range negative indices wrap as numpy's do. -/
def dmRead (g : Grid) (dm : Int × Int → Nat → FVal) (p : Int × Int) (o : Nat) :
    Option FVal :=
  match npIndex g.height p.1, npIndex g.width p.2 with
  | some r, some c => some (dm (r, c) o)
  | _, _ => none

/-- `_explore_branch(handle, position, direction, depth)`.  The recursion
is made structural on `budget = max_depth + 1 - depth`, so `budget = 0`
is the `depth >= max_depth + 1` early return and a node at `budget = b+1`
recurses with `b` and pads absent branches with `padCount b` nodes
(`= Σ_{i < max_depth - depth} 4^i`).  The non-target node feature
`self.distance_map[handle, r, c, dir]` is read through `dmRead`, so an
off-grid walk terminal propagates `IndexError` (`none`) instead of
producing a node; branch order is relative offsets (-1, 0, 1, 2) from
the walk's final direction, with forward/back swapped at a dead end. -/
def exploreBranch (g : Grid) (dm : Int × Int → Nat → FVal) (hasAgent hasTarget : Int × Int → Bool)
    (target : Int × Int) (fuel : Nat) :
    Nat → Int × Int → Nat → Option (List FVal)
  | 0, _, _ => some []
  | budget + 1, pos, dir =>
    match exploreWalk g hasAgent hasTarget target fuel pos dir false false with
    | none => none
    | some w =>
      let nodeOpt : Option (List FVal) :=
        if w.isTarget then
          some [FVal.fin 0, boolF w.otherTarget, boolF w.otherAgent, FVal.fin 0, FVal.fin 0]
        else
          (dmRead g dm w.position w.direction).map
            (fun v => [FVal.fin 0, boolF w.otherTarget, boolF w.otherAgent, FVal.fin 0, v])
      let child : Nat → Option (List FVal) := fun bd =>
        if w.isDeadEnd ∧ transBit g w.position.1 w.position.2 w.direction ((bd + 2) % 4) then
          exploreBranch g dm hasAgent hasTarget target fuel budget
            (newPosition w.position ((bd + 2) % 4)) ((bd + 2) % 4)
        else if w.isSwitch ∧ transBit g w.position.1 w.position.2 w.direction bd then
          exploreBranch g dm hasAgent hasTarget target fuel budget
            (newPosition w.position bd) bd
        else some (padRun budget)
      do
        let node ← nodeOpt
        let b1 ← child ((w.direction + 3) % 4)
        let b2 ← child ((w.direction + 4) % 4)
        let b3 ← child ((w.direction + 5) % 4)
        let b4 ← child ((w.direction + 6) % 4)
        some (node ++ b1 ++ b2 ++ b3 ++ b4)

/-- `TreeObsForRailEnv.get(handle)`: root node plus one branch (explored
or padded with `padCount max_depth` nodes) per relative direction
offset (-1, 0, 1, 2) from the agent's orientation.  The root feature is
the distance-map read at the agent's own position (through `dmRead`,
like every node read).  `agentPositions` and `targets` are all agents'
positions/targets (the membership tables `location_has_agent` /
`location_has_target`); `target`, `pos`, `dir` are the handle's own
target, position and orientation. -/
def getObs (g : Grid) (dm : Int × Int → Nat → FVal) (agentPositions targets : List (Int × Int))
    (target : Int × Int) (maxDepth fuel : Nat) (pos : Int × Int) (dir : Nat) :
    Option (List FVal) :=
  let hasAgent : Int × Int → Bool := fun p => agentPositions.any (fun q => decide (q = p))
  let hasTarget : Int × Int → Bool := fun p => targets.any (fun q => decide (q = p))
  let child : Nat → Option (List FVal) := fun bd =>
    if transBit g pos.1 pos.2 dir bd then
      exploreBranch g dm hasAgent hasTarget target fuel maxDepth (newPosition pos bd) bd
    else some (padRun maxDepth)
  do
    let rootV ← dmRead g dm pos dir
    let b1 ← child ((dir + 3) % 4)
    let b2 ← child ((dir + 4) % 4)
    let b3 ← child ((dir + 5) % 4)
    let b4 ← child ((dir + 6) % 4)
    some ([FVal.fin 0, FVal.fin 0, FVal.fin 0, FVal.fin 0, rootV] ++ b1 ++ b2 ++ b3 ++ b4)

/-! ### Distance map builder (`_distance_map_walker` / `_get_and_update_neighbors`) -/

/-- One target's slice of `distance_map`: per cell and orientation, a
distance or `none` for the `np.inf` initialisation. -/
def DistMap : Type := Int × Int → Nat → Option Nat

def dmUpdate (dm : DistMap) (p : Int × Int) (o : Nat) (v : Nat) : DistMap :=
  fun q o2 => if q = p ∧ o2 = o then some v else dm q o2

/-- Scalar `min(distance_map[...], current_distance + 1)` (`np.inf` loses). -/
def minDist (x : Option Nat) (y : Nat) : Nat :=
  match x with
  | none => y
  | some v => min v y

def valueErrorMin : String :=
  "ValueError: builtin min applied to the 4-element slice distance_map[target, r, c]"

/-- First loop of `_get_and_update_neighbors` (over `direction`).  When a
neighbor passes the transitionValid / directionMatch tests the source
executes `min(self.distance_map[target_nr, new_cell[0], new_cell[1]],
current_distance + 1)` — builtin `min` of a 4-element numpy slice and a
scalar, which raises `ValueError` (ambiguous array truth value); the
embedding returns that error. -/
def guanLoop1 (g : Grid) (position : Int × Int) (enforce : Int) : Except String Unit :=
  (List.range 4).foldl
    (fun acc direction =>
      acc.bind (fun _ =>
        let newCell := newPosition position ((direction + 2) % 4)
        if 0 ≤ newCell.1 ∧ newCell.1 < (g.height : Int) ∧
           0 ≤ newCell.2 ∧ newCell.2 < (g.width : Int) then
          let transitionValid :=
            (List.range 4).any (fun o => transBit g newCell.1 newCell.2 o direction)
          let dm0 :=
            if 0 ≤ enforce then transBit g newCell.1 newCell.2 direction enforce.toNat
            else true
          let dMatch :=
            if ¬dm0 ∧ popcount (getTransitions16 g newCell.1 newCell.2) = 1 then
              dm0 || transBit g newCell.1 newCell.2 ((direction + 2) % 4) direction
            else dm0
          if transitionValid ∧ dMatch then Except.error valueErrorMin else Except.ok ()
        else Except.ok ()))
    (Except.ok ())

/-- Second loop of `_get_and_update_neighbors` (over `neigh_direction` and
`agent_orientation`): per-orientation scalar relaxations, collecting the
appended `(cell, orientation, distance)` nodes. -/
def guanLoop2 (g : Grid) (dm : DistMap) (position : Int × Int) (current : Nat) (enforce : Int) :
    DistMap × List ((Int × Int) × Nat × Nat) :=
  let possibleDirections : List Nat :=
    if 0 ≤ enforce then [(enforce.toNat + 2) % 4] else [0, 1, 2, 3]
  possibleDirections.foldl
    (fun acc neighDirection =>
      let newCell := newPosition position neighDirection
      if 0 ≤ newCell.1 ∧ newCell.1 < (g.height : Int) ∧
         0 ≤ newCell.2 ∧ newCell.2 < (g.width : Int) then
        let desired := (neighDirection + 2) % 4
        (List.range 4).foldl
          (fun acc2 orientation =>
            if transBit g newCell.1 newCell.2 orientation desired then
              let nd := minDist (acc2.1 newCell orientation) (current + 1)
              (dmUpdate acc2.1 newCell orientation nd, acc2.2 ++ [(newCell, orientation, nd)])
            else acc2)
          acc
      else acc)
    (dm, [])

/-- `_get_and_update_neighbors(position, target_nr, current_distance,
enforce_target_direction)`: the first loop runs to completion (or raises)
before the second; a raise aborts the whole computation. -/
def getAndUpdateNeighbors (g : Grid) (dm : DistMap) (position : Int × Int) (current : Nat)
    (enforce : Int) : Except String (DistMap × List ((Int × Int) × Nat × Nat)) :=
  match guanLoop1 g position enforce with
  | Except.error e => Except.error e
  | Except.ok _ => Except.ok (guanLoop2 g dm position current enforce)

/-- The BFS `while nodes_queue` loop of `_distance_map_walker`, with fuel
for the unbounded source loop. -/
def bfsLoop (g : Grid) :
    Nat → DistMap → List ((Int × Int) × Nat × Nat) → List ((Int × Int) × Nat) → Nat →
    Except String (DistMap × Nat)
  | 0, _, _, _, _ => Except.error "fuel exhausted"
  | fuel + 1, dm, queue, visited, maxDistance =>
    match queue with
    | [] => Except.ok (dm, maxDistance)
    | node :: rest =>
      if (node.1, node.2.1) ∈ visited then bfsLoop g fuel dm rest visited maxDistance
      else
        match getAndUpdateNeighbors g dm node.1 node.2.2 (node.2.1 : Int) with
        | Except.error e => Except.error e
        | Except.ok (dm2, ns) =>
          bfsLoop g fuel dm2 (rest ++ ns) ((node.1, node.2.1) :: visited)
            (if ns ≠ [] then max maxDistance (node.2.2 + 1) else maxDistance)

/-- `_distance_map_walker(position, target_nr)`: zero the four target
orientations, seed the queue with the target's neighbors
(`enforce_target_direction = -1`), then BFS. -/
def distanceMapWalker (g : Grid) (position : Int × Int) (fuel : Nat) :
    Except String (DistMap × Nat) :=
  let dm0 : DistMap := fun p _ => if p = position then some 0 else none
  match getAndUpdateNeighbors g dm0 position 0 (-1) with
  | Except.error e => Except.error e
  | Except.ok (dm1, initial) =>
    bfsLoop g fuel dm1 initial
      [(position, 0), (position, 1), (position, 2), (position, 3)] 0

end Flatland

namespace Flatland

/-! ### Concrete instances used by witnesses and counterexamples -/

/-- A 1×3 straight corridor A-B-C: dead end at (0,0) (entry W, exit E,
bit 13), straight E-W track at (0,1) (bits 5 and 15), dead end at (0,2)
(entry E, exit W, bit 7). -/
def corridorGrid : Grid :=
  ⟨1, 3, fun r c =>
    if r = 0 ∧ c = 0 then 8192
    else if r = 0 ∧ c = 1 then 32800
    else if r = 0 ∧ c = 2 then 128
    else 0⟩

/-- A 2×2 closed loop of four curves, traversable clockwise and
counterclockwise; every cell has exactly one exit per entry orientation
and two mask bits total (so no cell is a dead end, a switch or empty). -/
def loopGrid : Grid :=
  ⟨2, 2, fun r c =>
    if r = 0 ∧ c = 0 then 2 ^ 1 + 2 ^ 14
    else if r = 0 ∧ c = 1 then 2 ^ 6 + 2 ^ 3
    else if r = 1 ∧ c = 1 then 2 ^ 11 + 2 ^ 4
    else if r = 1 ∧ c = 0 then 2 ^ 12 + 2 ^ 9
    else 0⟩

/-- A 1×1 grid whose only cell has transitions for entry orientation 1
only (exits E and W): an agent facing north there has no legal move. -/
def blockedGrid : Grid := ⟨1, 1, fun r c => if r = 0 ∧ c = 0 then 2 ^ 5 + 2 ^ 7 else 0⟩

/-- Agent in the middle of the corridor, facing east, target the west
dead end, stationary at a cell boundary. -/
def corridorAgent : Agent := ⟨(0, 1), 1, (0, 0), false, 1, 0, 0, (0, 1), 1⟩

def corridorState : EnvState := ⟨[corridorAgent], [false], false⟩

/-- Agent on the blocked grid facing north: any movement action is
invalid there. -/
def blockedAgent : Agent := ⟨(0, 0), 0, (0, 5), false, 1, 0, 0, (0, 0), 0⟩

def blockedState : EnvState := ⟨[blockedAgent], [false], false⟩

/-- Agent standing on its own target (east dead end), not yet done. -/
def onTargetAgent : Agent := ⟨(0, 2), 1, (0, 2), false, 1, 0, 0, (0, 2), 1⟩

def onTargetState : EnvState := ⟨[onTargetAgent], [false], false⟩

/-- Two stationary agents on distinct corridor cells. -/
def twoAgentState : EnvState :=
  ⟨[⟨(0, 1), 1, (0, 2), false, 1, 0, 0, (0, 1), 1⟩,
    ⟨(0, 2), 3, (0, 0), false, 1, 0, 0, (0, 2), 3⟩], [false, false], false⟩

/-- A finished single-agent episode (global done flag set). -/
def doneState : EnvState := ⟨[onTargetAgent], [true], true⟩

/-- Trivial distance map for observation-shape witnesses. -/
def zeroDm : Int × Int → Nat → FVal := fun _ _ => FVal.fin 0

end Flatland


namespace Flatland

/-- Agents and states for the dead-end reversal witness. -/
def deadEndGrid : Grid := ⟨1, 1, fun r c => if r = 0 ∧ c = 0 then 4 else 0⟩

def deadEndAgent : Agent := ⟨(0, 0), 0, (0, 1), false, 1, 0, 0, (0, 0), 0⟩

end Flatland

namespace Flatland

/-- The claim of observation-shape invariance quantifies over every grid
topology; on `loopGrid` the corridor walk of `_explore_branch` revisits
its starting state every four cells, so `get` never returns: the
embedding yields `none` for every walk fuel. -/
def getObsLoopDiverges : Prop :=
  ∀ fuel, getObs loopGrid zeroDm [] [] (3, 3) 2 fuel (0, 0) 0 = none

end Flatland

namespace Flatland

/-! ### List helper lemmas -/

theorem listGetDNil {α : Type _} (i : Nat) (d : α) : ([] : List α).getD i d = d := by
  simp [List.getD]

theorem listGetDConsZero {α : Type _} (x : α) (l : List α) (d : α) :
    (x :: l).getD 0 d = x := by
  simp [List.getD]

theorem listGetDConsSucc {α : Type _} (x : α) (l : List α) (i : Nat) (d : α) :
    (x :: l).getD (i + 1) d = l.getD i d := by
  simp [List.getD]

theorem listGetDSetSelf {α : Type _} (l : List α) (i : Nat) (x d : α) (h : i < l.length) :
    (l.set i x).getD i d = x := by
  induction l generalizing i with
  | nil => simp at h
  | cons y ys ih =>
    cases i with
    | zero => simp [List.set, listGetDConsZero]
    | succ n =>
      simp only [List.set, listGetDConsSucc]
      exact ih n (by simpa using h)

theorem listGetDSetNe {α : Type _} (l : List α) (i j : Nat) (x d : α) (h : i ≠ j) :
    (l.set i x).getD j d = l.getD j d := by
  induction l generalizing i j with
  | nil => simp [List.set]
  | cons y ys ih =>
    cases i with
    | zero =>
      cases j with
      | zero => exact absurd rfl h
      | succ m => simp [List.set, listGetDConsSucc]
    | succ n =>
      cases j with
      | zero => simp [List.set, listGetDConsZero]
      | succ m =>
        simp only [List.set, listGetDConsSucc]
        exact ih n m (fun hnm => h (by rw [hnm]))

theorem listSetGetDSelf {α : Type _} (l : List α) (i : Nat) (d : α) :
    l.set i (l.getD i d) = l := by
  induction l generalizing i with
  | nil => simp [List.set]
  | cons y ys ih =>
    cases i with
    | zero => simp [List.set, listGetDConsZero]
    | succ n =>
      simp only [List.set, listGetDConsSucc]
      rw [ih n]

theorem listMapSet {α β : Type _} (l : List α) (f : α → β) (i : Nat) (x : α) :
    (l.set i x).map f = (l.map f).set i (f x) := by
  induction l generalizing i with
  | nil => simp [List.set]
  | cons y ys ih =>
    cases i with
    | zero => simp [List.set]
    | succ n => simp [List.set, ih n]

theorem listGetDMap {α β : Type _} (l : List α) (f : α → β) (i : Nat) (d : α) :
    (l.map f).getD i (f d) = f (l.getD i d) := by
  induction l generalizing i with
  | nil => simp [listGetDNil]
  | cons y ys ih =>
    cases i with
    | zero => simp [listGetDConsZero]
    | succ n => simp [listGetDConsSucc, ih n]

theorem listMemSet {α : Type _} (l : List α) (i : Nat) (x y : α) (h : y ∈ l.set i x) :
    y ∈ l ∨ y = x := by
  induction l generalizing i with
  | nil => simp [List.set] at h
  | cons z zs ih =>
    cases i with
    | zero =>
      rcases List.mem_cons.1 h with h1 | h1
      · exact Or.inr h1
      · exact Or.inl (List.mem_cons_of_mem _ h1)
    | succ n =>
      rcases List.mem_cons.1 h with h1 | h1
      · exact Or.inl (h1 ▸ List.mem_cons_self _ _)
      · rcases ih n h1 with h2 | h2
        · exact Or.inl (List.mem_cons_of_mem _ h2)
        · exact Or.inr h2

theorem listPairwiseSet {α : Type _} (l : List α) (p : α) (i : Nat)
    (hl : l.Pairwise (· ≠ ·)) (hp : ∀ y ∈ l, y ≠ p) :
    (l.set i p).Pairwise (· ≠ ·) := by
  induction l generalizing i with
  | nil => simp [List.set]
  | cons y ys ih =>
    rcases List.pairwise_cons.1 hl with ⟨hy, hys⟩
    cases i with
    | zero =>
      refine List.pairwise_cons.2 ⟨?_, hys⟩
      intro z hz
      exact fun hpz => hp z (List.mem_cons_of_mem _ hz) (hpz ▸ rfl)
    | succ n =>
      refine List.pairwise_cons.2 ⟨?_, ih n hys (fun z hz => hp z (List.mem_cons_of_mem _ hz))⟩
      intro z hz
      rcases listMemSet ys n p z hz with h1 | h1
      · exact hy z h1
      · exact h1 ▸ hp y (List.mem_cons_self _ _)

end Flatland

namespace Flatland

/-! ### Phase lemmas for the step engine -/

theorem stopPhase_fields (a : Agent) (action : Int) :
    (stopPhase a action).position = a.position ∧ (stopPhase a action).direction = a.direction ∧
    (stopPhase a action).target = a.target ∧ (stopPhase a action).speed = a.speed ∧
    (stopPhase a action).fraction = a.fraction ∧
    (stopPhase a action).transitionAction = a.transitionAction ∧
    (stopPhase a action).oldPosition = a.oldPosition ∧
    (stopPhase a action).oldDirection = a.oldDirection := by
  unfold stopPhase; split <;> simp

theorem startPhase_fields (a : Agent) (action : Int) :
    (startPhase a action).position = a.position ∧ (startPhase a action).direction = a.direction ∧
    (startPhase a action).target = a.target ∧ (startPhase a action).speed = a.speed ∧
    (startPhase a action).fraction = a.fraction ∧
    (startPhase a action).transitionAction = a.transitionAction ∧
    (startPhase a action).oldPosition = a.oldPosition ∧
    (startPhase a action).oldDirection = a.oldDirection := by
  unfold startPhase; split <;> simp

theorem advancePhase_fields (a : Agent) (selected : Bool) :
    (advancePhase a selected).position = a.position ∧
    (advancePhase a selected).direction = a.direction ∧
    (advancePhase a selected).target = a.target ∧
    (advancePhase a selected).speed = a.speed ∧
    (advancePhase a selected).moving = a.moving ∧
    (advancePhase a selected).transitionAction = a.transitionAction ∧
    (advancePhase a selected).oldPosition = a.oldPosition ∧
    (advancePhase a selected).oldDirection = a.oldDirection := by
  unfold advancePhase; split <;> simp

/-- `trySelect` either ends the tick for the agent (forced stop, `inl`,
only `moving` cleared) or yields an agent differing from its input at
most in `transitionAction` (`inr`). -/
theorem trySelect_char (g : Grid) (ags : List Agent) (a : Agent) (action : Int) :
    (∃ b, trySelect g ags a action = Sum.inl b ∧
      b.position = a.position ∧ b.direction = a.direction ∧ b.target = a.target ∧
      b.speed = a.speed ∧ b.fraction = a.fraction ∧ b.moving = false ∧
      b.oldPosition = a.oldPosition ∧ b.oldDirection = a.oldDirection) ∨
    (∃ b sel, trySelect g ags a action = Sum.inr (b, sel) ∧
      b.position = a.position ∧ b.direction = a.direction ∧ b.target = a.target ∧
      b.speed = a.speed ∧ b.fraction = a.fraction ∧ b.moving = a.moving ∧
      b.oldPosition = a.oldPosition ∧ b.oldDirection = a.oldDirection) := by
  unfold trySelect
  split
  · split
    · right; exact ⟨_, _, rfl, by simp⟩
    · split
      · split
        · right; exact ⟨_, _, rfl, by simp⟩
        · left; exact ⟨_, rfl, by simp⟩
      · left; exact ⟨_, rfl, by simp⟩
  · right; exact ⟨_, _, rfl, by simp⟩

end Flatland

namespace Flatland

/-! ### check action lemmas -/

theorem argmax4_true_of_ex (f : Nat → Bool)
    (h : f 0 = true ∨ f 1 = true ∨ f 2 = true ∨ f 3 = true) :
    f (argmax4 f) = true := by
  unfold argmax4
  split_ifs with h0 h1 h2 h3 <;> simp_all

theorem numTransitions_one_ex (g : Grid) (r c : Int) (o : Nat)
    (h : numTransitions g r c o = 1) :
    transBit g r c o 0 = true ∨ transBit g r c o 1 = true ∨
    transBit g r c o 2 = true ∨ transBit g r c o 3 = true := by
  by_contra hc
  push_neg at hc
  have h4 : List.range 4 = [0, 1, 2, 3] := rfl
  rw [numTransitions, h4] at h
  simp [List.countP_cons, hc.1, hc.2.1, hc.2.2.1, hc.2.2.2] at h

theorem emod4_toNat_lt (z : Int) : (z.emod 4).toNat < 4 := by
  have h1 : 0 ≤ z.emod 4 := Int.emod_nonneg _ (by norm_num)
  have h2 : z.emod 4 < 4 := Int.emod_lt_of_pos _ (by norm_num)
  omega

theorem argmax4_lt (f : Nat → Bool) : argmax4 f < 4 := by
  unfold argmax4
  split_ifs <;> norm_num

theorem check_action_fst_lt (g : Grid) (a : Agent) (action : Int) :
    (check_action g a action).1 < 4 := by
  unfold check_action
  split_ifs
  · exact emod4_toNat_lt ((a.direction : Int) - 1)
  · exact emod4_toNat_lt ((a.direction : Int) - 1)
  · exact emod4_toNat_lt ((a.direction : Int) + 1)
  · exact emod4_toNat_lt ((a.direction : Int) + 1)
  · exact argmax4_lt _
  · exact emod4_toNat_lt (a.direction : Int)

theorem check_action_some_true_bit (g : Grid) (a : Agent) (action : Int)
    (h : (check_action g a action).2 = some true) :
    transBit g a.position.1 a.position.2 a.direction (check_action g a action).1 = true := by
  unfold check_action at h ⊢
  by_cases h1 : action = 1
  · rw [if_pos h1] at h
    exfalso
    revert h
    split <;> simp
  · rw [if_neg h1] at h ⊢
    by_cases h2 : action = 3
    · rw [if_pos h2] at h
      exfalso
      revert h
      split <;> simp
    · rw [if_neg h2] at h ⊢
      by_cases h3 : action = 2 ∧ numTransitions g a.position.1 a.position.2 a.direction = 1
      · rw [if_pos h3]
        exact argmax4_true_of_ex _
          (numTransitions_one_ex g a.position.1 a.position.2 a.direction h3.2)
      · rw [if_neg h3] at h
        simp at h

theorem checkOnAgent_newPosition (g : Grid) (ags : List Agent) (action : Int) (a : Agent) :
    (checkActionOnAgent g ags action a).newPosition =
      newPosition a.position (checkActionOnAgent g ags action a).newDirection := rfl

theorem checkOnAgent_newDirection (g : Grid) (ags : List Agent) (action : Int) (a : Agent) :
    (checkActionOnAgent g ags action a).newDirection = (check_action g a action).1 := rfl

theorem checkOnAgent_newDirection_lt (g : Grid) (ags : List Agent) (action : Int) (a : Agent) :
    (checkActionOnAgent g ags action a).newDirection < 4 :=
  check_action_fst_lt g a action

theorem checkOnAgent_transValid (g : Grid) (ags : List Agent) (action : Int) (a : Agent)
    (h : (checkActionOnAgent g ags action a).transitionValid = true) :
    transBit g a.position.1 a.position.2 a.direction
      (checkActionOnAgent g ags action a).newDirection = true := by
  rw [checkOnAgent_newDirection]
  have htv : (checkActionOnAgent g ags action a).transitionValid =
      (match (check_action g a action).2 with
       | some b => b
       | none => transBit g a.position.1 a.position.2 a.direction
           (check_action g a action).1) := rfl
  rw [htv] at h
  cases hca : (check_action g a action).2 with
  | none => rw [hca] at h; exact h
  | some b =>
    rw [hca] at h
    cases b with
    | false => simp at h
    | true => exact check_action_some_true_bit g a action hca

theorem checkOnAgent_free (g : Grid) (ags : List Agent) (action : Int) (a : Agent)
    (h : (checkActionOnAgent g ags action a).cellFree = true) :
    ∀ b ∈ ags, b.position ≠ (checkActionOnAgent g ags action a).newPosition := by
  have hf : (checkActionOnAgent g ags action a).cellFree =
      !(ags.any (fun b =>
        decide (b.position = (checkActionOnAgent g ags action a).newPosition))) := rfl
  rw [hf] at h
  simp only [Bool.not_eq_true', List.any_eq_false, decide_eq_false_iff_not] at h
  intro b hb
  have hb2 := h b hb
  simpa using hb2

theorem newPosition_ne (p : Int × Int) (d : Nat) (h : d < 4) : newPosition p d ≠ p := by
  interval_cases d
  · intro he; have h1 : p.1 - 1 = p.1 := congrArg Prod.fst he; omega
  · intro he; have h1 : p.2 + 1 = p.2 := congrArg Prod.snd he; omega
  · intro he; have h1 : p.1 + 1 = p.1 := congrArg Prod.fst he; omega
  · intro he; have h1 : p.2 - 1 = p.2 := congrArg Prod.snd he; omega

end Flatland

namespace Flatland

/-- `commitMove` either leaves the agent unchanged or commits the checked
move: a new position one cell away in a direction `< 4`, legal in the
transition map, free of every agent of `ags`, with the fraction reset. -/
theorem commitMove_cases (g : Grid) (ags : List Agent) (a : Agent) :
    commitMove g ags a = a ∨
    (commitMove g ags a =
       { a with position := (checkActionOnAgent g ags a.transitionAction a).newPosition,
                direction := (checkActionOnAgent g ags a.transitionAction a).newDirection,
                fraction := 0 } ∧
     (checkActionOnAgent g ags a.transitionAction a).transitionValid = true ∧
     (checkActionOnAgent g ags a.transitionAction a).cellFree = true) := by
  unfold commitMove
  split
  · split
    · rename_i hcond
      exact Or.inr ⟨rfl, hcond.2.1, hcond.2.2⟩
    · exact Or.inl rfl
  · exact Or.inl rfl

/-- Characterisation of the final agent of `processAgent`: static fields
are preserved, and either position and direction are unchanged, or a
commit happened: the final direction is `< 4` and legal from the old
state, the final position is the neighbor in that direction, the
fraction is reset, and no agent of `ags` occupied the destination. -/
theorem processAgent_char (g : Grid) (ags : List Agent) (actOpt : Option Int) (a : Agent) :
    (processAgent g ags actOpt a).agent.target = a.target ∧
    (processAgent g ags actOpt a).agent.speed = a.speed ∧
    (processAgent g ags actOpt a).agent.oldPosition = a.oldPosition ∧
    (processAgent g ags actOpt a).agent.oldDirection = a.oldDirection ∧
    (((processAgent g ags actOpt a).agent.position = a.position ∧
      (processAgent g ags actOpt a).agent.direction = a.direction) ∨
     ((processAgent g ags actOpt a).agent.fraction = 0 ∧
      (processAgent g ags actOpt a).agent.direction < 4 ∧
      (processAgent g ags actOpt a).agent.position =
        newPosition a.position (processAgent g ags actOpt a).agent.direction ∧
      transBit g a.position.1 a.position.2 a.direction
        (processAgent g ags actOpt a).agent.direction = true ∧
      (∀ b ∈ ags, b.position ≠ (processAgent g ags actOpt a).agent.position))) := by
  unfold processAgent
  dsimp only
  rcases trySelect_char g ags (startPhase (stopPhase a (reinterpretDoNothing (coerceAction actOpt) a.moving)) (reinterpretDoNothing (coerceAction actOpt) a.moving)) (reinterpretDoNothing (coerceAction actOpt) a.moving) with
    ⟨b, hb, hbpos, hbdir, hbtar, hbspd, hbfr, hbmov, hbop, hbod⟩ |
    ⟨b, sel, hb, hbpos, hbdir, hbtar, hbspd, hbfr, hbmov, hbop, hbod⟩ <;>
    have hs := stopPhase_fields a (reinterpretDoNothing (coerceAction actOpt) a.moving) <;>
    have ht := startPhase_fields (stopPhase a (reinterpretDoNothing (coerceAction actOpt) a.moving)) (reinterpretDoNothing (coerceAction actOpt) a.moving) <;>
    rw [hb] <;> dsimp only
  · exact ⟨by simp_all, by simp_all, by simp_all, by simp_all, Or.inl ⟨by simp_all, by simp_all⟩⟩
  · have hadv := advancePhase_fields b sel
    rcases commitMove_cases g ags (advancePhase b sel) with hc | ⟨hc, hctv, hcfree⟩
    · split <;>
        exact ⟨by simp_all, by simp_all, by simp_all, by simp_all,
          Or.inl ⟨by simp_all, by simp_all⟩⟩
    · have hpos : (advancePhase b sel).position = a.position := by simp_all
      have hdir : (advancePhase b sel).direction = a.direction := by simp_all
      have hnd :=
        checkOnAgent_newDirection_lt g ags (advancePhase b sel).transitionAction (advancePhase b sel)
      have hnp :=
        checkOnAgent_newPosition g ags (advancePhase b sel).transitionAction (advancePhase b sel)
      have hbit :=
        checkOnAgent_transValid g ags (advancePhase b sel).transitionAction (advancePhase b sel) hctv
      have hfree :=
        checkOnAgent_free g ags (advancePhase b sel).transitionAction (advancePhase b sel) hcfree
      rw [hpos, hdir] at hbit
      split <;>
        refine ⟨by simp_all, by simp_all, by simp_all, by simp_all,
          Or.inr ⟨by simp_all, by simp_all, by rw [hc]; dsimp only; rw [hnp, hpos],
            by rw [hc]; dsimp only; exact hbit, ?_⟩⟩ <;>
        · intro b2 hb2
          rw [hc]
          dsimp only
          exact hfree b2 hb2

end Flatland

namespace Flatland

/-- Reward/done outcome of one agent's processing: forced stop with zero
reward and no done-marking; or done-marking with zero reward; or the
step penalty scaled by the agent's speed. -/
theorem processAgent_outcome (g : Grid) (ags : List Agent) (actOpt : Option Int) (a : Agent) :
    ((processAgent g ags actOpt a).forcedStop = true ∧
     (processAgent g ags actOpt a).doneNow = false ∧
     (processAgent g ags actOpt a).reward = 0 ∧
     (processAgent g ags actOpt a).agent.moving = false ∧
     (processAgent g ags actOpt a).agent.position = a.position) ∨
    ((processAgent g ags actOpt a).forcedStop = false ∧
     (processAgent g ags actOpt a).doneNow = true ∧
     (processAgent g ags actOpt a).agent.position = (processAgent g ags actOpt a).agent.target ∧
     (processAgent g ags actOpt a).reward = 0) ∨
    ((processAgent g ags actOpt a).forcedStop = false ∧
     (processAgent g ags actOpt a).doneNow = false ∧
     (processAgent g ags actOpt a).agent.position ≠ (processAgent g ags actOpt a).agent.target ∧
     (processAgent g ags actOpt a).reward =
       stepPenalty * (processAgent g ags actOpt a).agent.speed) := by
  unfold processAgent
  dsimp only
  rcases trySelect_char g ags (startPhase (stopPhase a (reinterpretDoNothing (coerceAction actOpt) a.moving)) (reinterpretDoNothing (coerceAction actOpt) a.moving)) (reinterpretDoNothing (coerceAction actOpt) a.moving) with
    ⟨b, hb, hbpos, hbdir, hbtar, hbspd, hbfr, hbmov, hbop, hbod⟩ |
    ⟨b, sel, hb, hbpos, hbdir, hbtar, hbspd, hbfr, hbmov, hbop, hbod⟩ <;>
    rw [hb] <;> dsimp only
  · left
    have hs := stopPhase_fields a (reinterpretDoNothing (coerceAction actOpt) a.moving)
    have ht := startPhase_fields (stopPhase a (reinterpretDoNothing (coerceAction actOpt) a.moving)) (reinterpretDoNothing (coerceAction actOpt) a.moving)
    refine ⟨rfl, rfl, ?_, hbmov, by simp_all⟩
    simp [stopPenalty, startPenalty, invalidActionPenalty]
  · split
    · right; left
      refine ⟨rfl, rfl, by assumption, ?_⟩
      simp [stopPenalty, startPenalty]
    · right; right
      refine ⟨rfl, rfl, by assumption, ?_⟩
      simp [stopPenalty, startPenalty]

theorem listSetBeyond {α : Type _} (l : List α) (i : Nat) (x : α) (h : l.length ≤ i) :
    l.set i x = l := by
  induction l generalizing i with
  | nil => simp [List.set]
  | cons y ys ih =>
    cases i with
    | zero => simp at h
    | succ n =>
      simp only [List.set]
      rw [ih n (by simpa using h)]

theorem listGetDSetTrue (l : List Bool) (i j : Nat) (h : l.getD i false = true) :
    (l.set j true).getD i false = true := by
  by_cases hij : j = i
  · subst hij
    by_cases hlen : j < l.length
    · rw [listGetDSetSelf _ _ _ _ hlen]
    · rw [listSetBeyond _ _ _ (le_of_not_lt hlen)]
      exact h
  · rw [listGetDSetNe _ _ _ _ _ hij]
    exact h

/-- Per-agent processing preserves the lengths of the three lists. -/
theorem processOne_lengths (g : Grid) (st : StepState) (i : Nat) (act : Option Int) :
    (processOne g st i act).agents.length = st.agents.length ∧
    (processOne g st i act).dones.length = st.dones.length ∧
    (processOne g st i act).rewards.length = st.rewards.length := by
  unfold processOne
  dsimp only
  split
  · simp [List.length_set]
  · refine ⟨by simp [List.length_set], ?_, by simp [List.length_set]⟩
    split <;> simp [List.length_set]

/-- Processing agent `i` leaves every other index untouched. -/
theorem processOne_frame (g : Grid) (st : StepState) (i : Nat) (act : Option Int) (j : Nat)
    (h : j ≠ i) :
    (processOne g st i act).agents.getD j defaultAgent = st.agents.getD j defaultAgent ∧
    (processOne g st i act).dones.getD j false = st.dones.getD j false ∧
    (processOne g st i act).rewards.getD j 0 = st.rewards.getD j 0 := by
  have hne : i ≠ j := fun hij => h hij.symm
  unfold processOne
  dsimp only
  split
  · exact ⟨listGetDSetNe _ _ _ _ _ hne, rfl, rfl⟩
  · refine ⟨listGetDSetNe _ _ _ _ _ hne, ?_, listGetDSetNe _ _ _ _ _ hne⟩
    split
    · exact listGetDSetNe _ _ _ _ _ hne
    · rfl

/-- An agent already done is skipped: only its `old_*` fields change, and
the done flags are untouched. -/
theorem processOne_done_fields (g : Grid) (st : StepState) (i : Nat) (act : Option Int)
    (h : st.dones.getD i false = true) :
    ((processOne g st i act).agents.getD i defaultAgent).position =
      (st.agents.getD i defaultAgent).position ∧
    ((processOne g st i act).agents.getD i defaultAgent).direction =
      (st.agents.getD i defaultAgent).direction ∧
    ((processOne g st i act).agents.getD i defaultAgent).moving =
      (st.agents.getD i defaultAgent).moving ∧
    ((processOne g st i act).agents.getD i defaultAgent).fraction =
      (st.agents.getD i defaultAgent).fraction ∧
    (processOne g st i act).dones = st.dones ∧
    (processOne g st i act).rewards = st.rewards := by
  unfold processOne
  dsimp only
  rw [if_pos h]
  dsimp only
  by_cases hlen : i < st.agents.length
  · rw [listGetDSetSelf _ _ _ _ hlen]
    exact ⟨rfl, rfl, rfl, rfl, rfl, rfl⟩
  · rw [listSetBeyond _ _ _ (le_of_not_lt hlen)]
    exact ⟨rfl, rfl, rfl, rfl, rfl, rfl⟩

/-- Whatever agent is processed, a done flag already set stays set, and
the owning agent's dynamic fields are untouched. -/
theorem processOne_keeps_done (g : Grid) (st : StepState) (i j : Nat) (act : Option Int)
    (h : st.dones.getD i false = true) :
    (processOne g st j act).dones.getD i false = true ∧
    ((processOne g st j act).agents.getD i defaultAgent).position =
      (st.agents.getD i defaultAgent).position ∧
    ((processOne g st j act).agents.getD i defaultAgent).direction =
      (st.agents.getD i defaultAgent).direction ∧
    ((processOne g st j act).agents.getD i defaultAgent).moving =
      (st.agents.getD i defaultAgent).moving ∧
    ((processOne g st j act).agents.getD i defaultAgent).fraction =
      (st.agents.getD i defaultAgent).fraction := by
  by_cases hij : j = i
  · subst hij
    have hd := processOne_done_fields g st j act h
    exact ⟨hd.2.2.2.2.1 ▸ h, hd.1, hd.2.1, hd.2.2.1, hd.2.2.2.1⟩
  · have hf := processOne_frame g st j act i (fun hh => hij hh.symm)
    exact ⟨hf.2.1 ▸ h, by rw [hf.1], by rw [hf.1], by rw [hf.1], by rw [hf.1]⟩

/-- Done flags are only ever set, never cleared. -/
theorem processOne_dones_cases (g : Grid) (st : StepState) (i : Nat) (act : Option Int) :
    (processOne g st i act).dones = st.dones ∨
    (processOne g st i act).dones = st.dones.set i true := by
  unfold processOne
  dsimp only
  split
  · exact Or.inl rfl
  · split
    · exact Or.inr rfl
    · exact Or.inl rfl

theorem stepLoop_succ (g : Grid) (acts : Nat → Option Int) (st : StepState) (n : Nat) :
    stepLoop g acts st (n + 1) = processOne g (stepLoop g acts st n) n (acts n) := by
  unfold stepLoop
  rw [List.range_succ, List.foldl_append]
  rfl

end Flatland

namespace Flatland

/-- The per-agent loop body replaces only index `i`, and the replacement
either keeps the agent's position and direction, or moves it one cell
along a legal transition into a cell no agent of the list occupied. -/
theorem processOne_position_char (g : Grid) (st : StepState) (i : Nat) (act : Option Int) :
    ∃ b, (processOne g st i act).agents = st.agents.set i b ∧
      ((b.position = (st.agents.getD i defaultAgent).position ∧
        b.direction = (st.agents.getD i defaultAgent).direction) ∨
       (b.fraction = 0 ∧ b.direction < 4 ∧
        b.position = newPosition (st.agents.getD i defaultAgent).position b.direction ∧
        transBit g (st.agents.getD i defaultAgent).position.1
          (st.agents.getD i defaultAgent).position.2
          (st.agents.getD i defaultAgent).direction b.direction = true ∧
        (∀ b2 ∈ st.agents, b2.position ≠ b.position))) := by
  unfold processOne
  dsimp only
  split
  · exact ⟨_, rfl, Or.inl ⟨rfl, rfl⟩⟩
  · refine ⟨_, rfl, ?_⟩
    have hchar := processAgent_char g
      (st.agents.set i { st.agents.getD i defaultAgent with
        oldDirection := (st.agents.getD i defaultAgent).direction,
        oldPosition := (st.agents.getD i defaultAgent).position }) act
      { st.agents.getD i defaultAgent with
        oldDirection := (st.agents.getD i defaultAgent).direction,
        oldPosition := (st.agents.getD i defaultAgent).position }
    rcases hchar.2.2.2.2 with ⟨hp, hd⟩ | ⟨hf, hdlt, hnp, hbit, hfree⟩
    · exact Or.inl ⟨hp, hd⟩
    · refine Or.inr ⟨hf, hdlt, hnp, hbit, ?_⟩
      have hmap : (st.agents.set i { st.agents.getD i defaultAgent with
          oldDirection := (st.agents.getD i defaultAgent).direction,
          oldPosition := (st.agents.getD i defaultAgent).position }).map Agent.position =
          st.agents.map Agent.position := by
        rw [listMapSet]
        have hpos2 : ({ st.agents.getD i defaultAgent with
            oldDirection := (st.agents.getD i defaultAgent).direction,
            oldPosition := (st.agents.getD i defaultAgent).position } : Agent).position =
            (st.agents.map Agent.position).getD i defaultAgent.position :=
          (listGetDMap st.agents Agent.position i defaultAgent).symm
        rw [hpos2, listSetGetDSelf]
      intro b2 hb2
      have hmem : b2.position ∈ (st.agents.set i { st.agents.getD i defaultAgent with
          oldDirection := (st.agents.getD i defaultAgent).direction,
          oldPosition := (st.agents.getD i defaultAgent).position }).map Agent.position := by
        rw [hmap]
        exact List.mem_map_of_mem _ hb2
      rcases List.mem_map.1 hmem with ⟨x, hx, hxe⟩
      rw [← hxe]
      exact hfree x hx

end Flatland

namespace Flatland

/-- C1: the claim states that after the observation builder's reset,
`distance_map[a][r][c][o]` holds the true shortest transition count to
agent `a`'s target.  In fact `_distance_map_walker` never completes: on
any map with a transition into the target cell, the first relaxation of
`_get_and_update_neighbors` evaluates builtin `min` on the 4-element
slice `distance_map[target_nr, r, c]`, which raises `ValueError`; here
evaluated on the 1×3 corridor with target (0,2). -/
theorem distanceMapWalker_raises_valueError :
    distanceMapWalker corridorGrid (0, 2) 100 = Except.error valueErrorMin := rfl

/-- C4: the claim states that every action code outside {0,1,2,3,4}
behaves as DO_NOTHING.  The source guard is `action < 0 or action >
len(RailEnvActions)`, i.e. `> 5`, so code 5 is not coerced: a stationary
agent in the middle of the corridor given action 5 starts moving and
advances east to (0,2), while the same agent given DO_NOTHING stays at
(0,1). -/
theorem step_action_five_divergence :
    ((step corridorGrid corridorState (fun _ => some 5)).1.agents.getD 0
      defaultAgent).position = (0, 2) ∧
    ((step corridorGrid corridorState (fun _ => some 0)).1.agents.getD 0
      defaultAgent).position = (0, 1) := by with_unfolding_all decide

/-- C6: for an agent at a dead-end cell (16-bit mask with exactly one set
bit) facing into the dead end with direction `d` (the single transition
is entry `d`, exit `(d+2) % 4`), `check_action` on MOVE_FORWARD returns
the reversed direction `(d+2) % 4` with `transition_isValid = True`:
the action is valid rather than failing. -/
theorem check_action_dead_end_reversal (g : Grid) (a : Agent) (d : Nat) (h1 : a.direction = d)
    (h2 : d < 4)
    (h3 : getTransitions16 g a.position.1 a.position.2 = 2 ^ (d * 4 + (d + 2) % 4)) :
    check_action g a 2 = ((d + 2) % 4, some true) := by
  interval_cases d <;>
    · simp only [check_action, numTransitions, transBit, argmax4, h1, h3]
      decide

/-- Witness for C6 at `d = 0` on a concrete one-cell dead-end grid. -/
theorem check_action_dead_end_reversal_witness :
    check_action deadEndGrid deadEndAgent 2 = ((0 + 2) % 4, some true) :=
  check_action_dead_end_reversal deadEndGrid deadEndAgent 0 rfl (by decide) (by decide)

/-- C7: when the episode is already globally done, `step` changes nothing
(agents, per-agent done flags and the global flag are all unchanged) and
returns, for every agent, a reward of zero plus the flat global bonus. -/
theorem step_globally_done_frame (g : Grid) (s : EnvState) (acts : Nat → Option Int)
    (h : s.allDone = true) :
    (step g s acts).1 = s ∧
    (step g s acts).2 = List.replicate s.agents.length (0 + globalReward) := by
  unfold step
  rw [if_pos h]
  exact ⟨rfl, by rw [List.map_replicate]⟩

/-- Witness for C7 on a finished single-agent episode. -/
theorem step_globally_done_frame_witness :
    (step corridorGrid doneState (fun _ => none)).1 = doneState ∧
    (step corridorGrid doneState (fun _ => none)).2 =
      List.replicate doneState.agents.length (0 + globalReward) :=
  step_globally_done_frame corridorGrid doneState (fun _ => none) rfl

end Flatland

namespace Flatland

/-- One loop iteration preserves pairwise-distinct agent positions. -/
theorem processOne_pairwise (g : Grid) (st : StepState) (i : Nat) (act : Option Int)
    (h : (st.agents.map Agent.position).Pairwise (· ≠ ·)) :
    ((processOne g st i act).agents.map Agent.position).Pairwise (· ≠ ·) := by
  rcases processOne_position_char g st i act with ⟨b, hset, hchar⟩
  rw [hset, listMapSet]
  rcases hchar with ⟨hp, _⟩ | ⟨_, _, _, _, hfree⟩
  · rw [hp, ← listGetDMap st.agents Agent.position i defaultAgent, listSetGetDSelf]
    exact h
  · refine listPairwiseSet _ _ _ h ?_
    intro q hq
    rcases List.mem_map.1 hq with ⟨x, hx, hxe⟩
    rw [← hxe]
    exact hfree x hx

theorem stepLoop_pairwise (g : Grid) (acts : Nat → Option Int) (n : Nat) (st : StepState)
    (h : (st.agents.map Agent.position).Pairwise (· ≠ ·)) :
    ((stepLoop g acts st n).agents.map Agent.position).Pairwise (· ≠ ·) := by
  induction n with
  | zero => exact h
  | succ m ih =>
    rw [stepLoop_succ]
    exact processOne_pairwise g _ m (acts m) ih

/-- C2: if all agents occupy pairwise-distinct cells before a call to
`step`, they still occupy pairwise-distinct cells after it: lower-indexed
agents move first, and a commit requires the destination cell to be
unoccupied in the current (partially updated) agent list, which contains
every other agent's position. -/
theorem step_no_double_occupancy (g : Grid) (s : EnvState) (acts : Nat → Option Int)
    (h : (s.agents.map Agent.position).Pairwise (· ≠ ·)) :
    (((step g s acts).1.agents.map Agent.position)).Pairwise (· ≠ ·) := by
  unfold step
  dsimp only
  split
  · exact h
  · split <;> exact stepLoop_pairwise g acts s.agents.length ⟨s.agents, s.dones, _⟩ h

/-- Witness for C2: two distinct stationary corridor agents stay distinct
through a tick in which both are ordered to move forward. -/
theorem step_no_double_occupancy_witness :
    (((step corridorGrid twoAgentState (fun _ => some 2)).1.agents.map
      Agent.position)).Pairwise (· ≠ ·) :=
  step_no_double_occupancy corridorGrid twoAgentState (fun _ => some 2)
    (by with_unfolding_all decide)

end Flatland

namespace Flatland

theorem stepLoop_keeps_done (g : Grid) (acts : Nat → Option Int) (i : Nat) (n : Nat)
    (st : StepState) (h : st.dones.getD i false = true) :
    (stepLoop g acts st n).dones.getD i false = true ∧
    ((stepLoop g acts st n).agents.getD i defaultAgent).position =
      (st.agents.getD i defaultAgent).position ∧
    ((stepLoop g acts st n).agents.getD i defaultAgent).direction =
      (st.agents.getD i defaultAgent).direction ∧
    ((stepLoop g acts st n).agents.getD i defaultAgent).moving =
      (st.agents.getD i defaultAgent).moving ∧
    ((stepLoop g acts st n).agents.getD i defaultAgent).fraction =
      (st.agents.getD i defaultAgent).fraction := by
  induction n with
  | zero => exact ⟨h, rfl, rfl, rfl, rfl⟩
  | succ m ih =>
    rw [stepLoop_succ]
    have hk := processOne_keeps_done g (stepLoop g acts st m) i m (acts m) ih.1
    exact ⟨hk.1, hk.2.1.trans ih.2.1, hk.2.2.1.trans ih.2.2.1,
      hk.2.2.2.1.trans ih.2.2.2.1, hk.2.2.2.2.trans ih.2.2.2.2⟩

theorem step_keeps_done (g : Grid) (s : EnvState) (acts : Nat → Option Int) (i : Nat)
    (h : s.dones.getD i false = true) :
    (step g s acts).1.dones.getD i false = true ∧
    (((step g s acts).1.agents.getD i defaultAgent).position =
      (s.agents.getD i defaultAgent).position) ∧
    (((step g s acts).1.agents.getD i defaultAgent).direction =
      (s.agents.getD i defaultAgent).direction) ∧
    (((step g s acts).1.agents.getD i defaultAgent).moving =
      (s.agents.getD i defaultAgent).moving) ∧
    (((step g s acts).1.agents.getD i defaultAgent).fraction =
      (s.agents.getD i defaultAgent).fraction) := by
  unfold step
  dsimp only
  split
  · exact ⟨h, rfl, rfl, rfl, rfl⟩
  · split <;>
      exact stepLoop_keeps_done g acts i s.agents.length ⟨s.agents, s.dones, _⟩ h

/-- C8: once an agent's individual done flag is set, every later `step`
call of the episode keeps it set and never changes the agent's position,
direction, moving flag or position fraction (only the `old_*` bookkeeping
fields are rewritten before the done check skips the agent). -/
theorem stepChain_done_monotone (g : Grid) (s : EnvState) (i : Nat)
    (actsList : List (Nat → Option Int)) (h : s.dones.getD i false = true) :
    (stepChain g s actsList).dones.getD i false = true ∧
    ((stepChain g s actsList).agents.getD i defaultAgent).position =
      (s.agents.getD i defaultAgent).position ∧
    ((stepChain g s actsList).agents.getD i defaultAgent).direction =
      (s.agents.getD i defaultAgent).direction ∧
    ((stepChain g s actsList).agents.getD i defaultAgent).moving =
      (s.agents.getD i defaultAgent).moving ∧
    ((stepChain g s actsList).agents.getD i defaultAgent).fraction =
      (s.agents.getD i defaultAgent).fraction := by
  induction actsList generalizing s with
  | nil => exact ⟨h, rfl, rfl, rfl, rfl⟩
  | cons a rest ih =>
    have hk := step_keeps_done g s a i h
    have hr := ih (step g s a).1 hk.1
    exact ⟨hr.1, hr.2.1.trans hk.2.1, hr.2.2.1.trans hk.2.2.1,
      hr.2.2.2.1.trans hk.2.2.2.1, hr.2.2.2.2.trans hk.2.2.2.2⟩

/-- Witness for C8: a done agent survives two further ticks of forward
orders with flag and dynamic fields intact. -/
theorem stepChain_done_monotone_witness :
    (stepChain corridorGrid ⟨[onTargetAgent], [true], false⟩
      [fun _ => some 2, fun _ => some 2]).dones.getD 0 false = true ∧
    ((stepChain corridorGrid ⟨[onTargetAgent], [true], false⟩
      [fun _ => some 2, fun _ => some 2]).agents.getD 0 defaultAgent).position =
      ((⟨[onTargetAgent], [true], false⟩ : EnvState).agents.getD 0 defaultAgent).position ∧
    ((stepChain corridorGrid ⟨[onTargetAgent], [true], false⟩
      [fun _ => some 2, fun _ => some 2]).agents.getD 0 defaultAgent).direction =
      ((⟨[onTargetAgent], [true], false⟩ : EnvState).agents.getD 0 defaultAgent).direction ∧
    ((stepChain corridorGrid ⟨[onTargetAgent], [true], false⟩
      [fun _ => some 2, fun _ => some 2]).agents.getD 0 defaultAgent).moving =
      ((⟨[onTargetAgent], [true], false⟩ : EnvState).agents.getD 0 defaultAgent).moving ∧
    ((stepChain corridorGrid ⟨[onTargetAgent], [true], false⟩
      [fun _ => some 2, fun _ => some 2]).agents.getD 0 defaultAgent).fraction =
      ((⟨[onTargetAgent], [true], false⟩ : EnvState).agents.getD 0 defaultAgent).fraction :=
  stepChain_done_monotone corridorGrid ⟨[onTargetAgent], [true], false⟩ 0
    [fun _ => some 2, fun _ => some 2] rfl

end Flatland

namespace Flatland

theorem stepLoop_lengths (g : Grid) (acts : Nat → Option Int) (n : Nat) (st : StepState) :
    (stepLoop g acts st n).agents.length = st.agents.length ∧
    (stepLoop g acts st n).dones.length = st.dones.length ∧
    (stepLoop g acts st n).rewards.length = st.rewards.length := by
  induction n with
  | zero => exact ⟨rfl, rfl, rfl⟩
  | succ m ih =>
    rw [stepLoop_succ]
    have hp := processOne_lengths g (stepLoop g acts st m) m (acts m)
    exact ⟨hp.1.trans ih.1, hp.2.1.trans ih.2.1, hp.2.2.trans ih.2.2⟩

/-- Through the loop, agent `i` is untouched until index `i` is processed,
and afterwards relates to its initial state by: unchanged position and
direction, or a single committed transition-legal move. -/
theorem stepLoop_move_char (g : Grid) (acts : Nat → Option Int) (i : Nat) (n : Nat)
    (st : StepState) :
    (n ≤ i →
      (stepLoop g acts st n).agents.getD i defaultAgent = st.agents.getD i defaultAgent ∧
      (stepLoop g acts st n).dones.getD i false = st.dones.getD i false) ∧
    (i < n →
      (((stepLoop g acts st n).agents.getD i defaultAgent).position =
         (st.agents.getD i defaultAgent).position ∧
       ((stepLoop g acts st n).agents.getD i defaultAgent).direction =
         (st.agents.getD i defaultAgent).direction) ∨
      (((stepLoop g acts st n).agents.getD i defaultAgent).fraction = 0 ∧
       ((stepLoop g acts st n).agents.getD i defaultAgent).direction < 4 ∧
       ((stepLoop g acts st n).agents.getD i defaultAgent).position =
         newPosition (st.agents.getD i defaultAgent).position
           ((stepLoop g acts st n).agents.getD i defaultAgent).direction ∧
       transBit g (st.agents.getD i defaultAgent).position.1
         (st.agents.getD i defaultAgent).position.2
         (st.agents.getD i defaultAgent).direction
         ((stepLoop g acts st n).agents.getD i defaultAgent).direction = true)) := by
  induction n with
  | zero => exact ⟨fun _ => ⟨rfl, rfl⟩, fun hlt => absurd hlt (Nat.not_lt_zero i)⟩
  | succ m ih =>
    constructor
    · intro hle
      have hmne : m ≠ i := by omega
      have hf := processOne_frame g (stepLoop g acts st m) m (acts m) i
        (fun hh => hmne hh.symm)
      rw [stepLoop_succ]
      have ihle := ih.1 (by omega)
      exact ⟨hf.1.trans ihle.1, hf.2.1.trans ihle.2⟩
    · intro hlt
      rcases Nat.lt_succ_iff_lt_or_eq.1 hlt with hlt2 | heq
      · have hmne : m ≠ i := by omega
        have hf := processOne_frame g (stepLoop g acts st m) m (acts m) i
          (fun hh => hmne hh.symm)
        rw [stepLoop_succ]
        rcases ih.2 hlt2 with ⟨hp, hd⟩ | ⟨h1, h2, h3, h4⟩
        · exact Or.inl ⟨hf.1 ▸ hp, hf.1 ▸ hd⟩
        · exact Or.inr ⟨hf.1 ▸ h1, hf.1 ▸ h2, hf.1 ▸ h3, hf.1 ▸ h4⟩
      · subst heq
        rw [stepLoop_succ]
        have ihag := (ih.1 (le_refl i)).1
        rcases processOne_position_char g (stepLoop g acts st i) i (acts i) with
          ⟨b, hset, hchar⟩
        rw [hset]
        by_cases hlen : i < (stepLoop g acts st i).agents.length
        · rw [listGetDSetSelf _ _ _ _ hlen]
          rw [ihag] at hchar
          rcases hchar with ⟨hp, hd⟩ | ⟨h1, h2, h3, h4, _⟩
          · exact Or.inl ⟨hp, hd⟩
          · exact Or.inr ⟨h1, h2, h3, h4⟩
        · rw [listSetBeyond _ _ _ (le_of_not_lt hlen)]
          exact Or.inl ⟨congrArg Agent.position ihag, congrArg Agent.direction ihag⟩

/-- C9: in any `step` call, an agent whose position changed has a reset
position fraction, sits on the neighbor of its old position in its new
direction, and the transition from its old state to the new direction was
legal in the map; an agent whose position did not change kept its
direction. -/
theorem step_move_legal (g : Grid) (s : EnvState) (acts : Nat → Option Int) (i : Nat) :
    (((step g s acts).1.agents.getD i defaultAgent).position ≠
        (s.agents.getD i defaultAgent).position →
      ((step g s acts).1.agents.getD i defaultAgent).fraction = 0 ∧
      ((step g s acts).1.agents.getD i defaultAgent).position =
        newPosition (s.agents.getD i defaultAgent).position
          ((step g s acts).1.agents.getD i defaultAgent).direction ∧
      transBit g (s.agents.getD i defaultAgent).position.1
        (s.agents.getD i defaultAgent).position.2
        (s.agents.getD i defaultAgent).direction
        ((step g s acts).1.agents.getD i defaultAgent).direction = true) ∧
    (((step g s acts).1.agents.getD i defaultAgent).position =
        (s.agents.getD i defaultAgent).position →
      ((step g s acts).1.agents.getD i defaultAgent).direction =
        (s.agents.getD i defaultAgent).direction) := by
  unfold step
  dsimp only
  split
  · exact ⟨fun hne => absurd rfl hne, fun _ => rfl⟩
  · have hkey : ∀ (w : StepState), w = ⟨s.agents, s.dones,
        List.replicate s.agents.length 0⟩ →
      ((((stepLoop g acts w s.agents.length).agents.getD i defaultAgent).position ≠
          (s.agents.getD i defaultAgent).position →
        ((stepLoop g acts w s.agents.length).agents.getD i defaultAgent).fraction = 0 ∧
        ((stepLoop g acts w s.agents.length).agents.getD i defaultAgent).position =
          newPosition (s.agents.getD i defaultAgent).position
            ((stepLoop g acts w s.agents.length).agents.getD i defaultAgent).direction ∧
        transBit g (s.agents.getD i defaultAgent).position.1
          (s.agents.getD i defaultAgent).position.2
          (s.agents.getD i defaultAgent).direction
          ((stepLoop g acts w s.agents.length).agents.getD i defaultAgent).direction = true) ∧
       (((stepLoop g acts w s.agents.length).agents.getD i defaultAgent).position =
          (s.agents.getD i defaultAgent).position →
        ((stepLoop g acts w s.agents.length).agents.getD i defaultAgent).direction =
          (s.agents.getD i defaultAgent).direction)) := by
      intro w hw
      subst hw
      have hchar := stepLoop_move_char g acts i s.agents.length
        ⟨s.agents, s.dones, List.replicate s.agents.length 0⟩
      by_cases hlt : i < s.agents.length
      · rcases hchar.2 hlt with ⟨hp, hd⟩ | ⟨h1, h2, h3, h4⟩
        · exact ⟨fun hne => absurd hp hne, fun _ => hd⟩
        · refine ⟨fun _ => ⟨h1, h3, h4⟩, fun hpe => ?_⟩
          exfalso
          rw [h3] at hpe
          exact newPosition_ne _ _ h2 hpe
      · have hag := (hchar.1 (le_of_not_lt hlt)).1
        exact ⟨fun hne => absurd (congrArg Agent.position hag) hne,
          fun _ => congrArg Agent.direction hag⟩
    split <;> exact hkey _ rfl

/-- Witness for C9: the corridor agent ordered forward moves from (0,1)
to (0,2); the theorem instantiated there yields the committed-move facts. -/
theorem step_move_legal_witness :
    ((step corridorGrid corridorState (fun _ => some 2)).1.agents.getD 0
      defaultAgent).fraction = 0 ∧
    ((step corridorGrid corridorState (fun _ => some 2)).1.agents.getD 0
      defaultAgent).position =
      newPosition (corridorState.agents.getD 0 defaultAgent).position
        ((step corridorGrid corridorState (fun _ => some 2)).1.agents.getD 0
          defaultAgent).direction ∧
    transBit corridorGrid (corridorState.agents.getD 0 defaultAgent).position.1
      (corridorState.agents.getD 0 defaultAgent).position.2
      (corridorState.agents.getD 0 defaultAgent).direction
      ((step corridorGrid corridorState (fun _ => some 2)).1.agents.getD 0
        defaultAgent).direction = true :=
  (step_move_legal corridorGrid corridorState (fun _ => some 2) 0).1
    (by with_unfolding_all decide)

end Flatland

namespace Flatland

/-- A stationary agent at a cell boundary whose effective action is
DO_NOTHING neither starts, selects, advances nor commits: only the final
done / step-penalty check fires. -/
theorem processAgent_idle (g : Grid) (ags : List Agent) (act : Option Int) (a : Agent)
    (hmv : a.moving = false) (hfr : a.fraction = 0) (hact : coerceAction act = 0) :
    processAgent g ags act a =
      if a.position = a.target then ⟨a, 0 + 0, false, true⟩
      else ⟨a, 0 + 0 + stepPenalty * a.speed, false, false⟩ := by
  unfold processAgent reinterpretDoNothing stopPhase startPhase trySelect advancePhase commitMove
  rw [hact]
  have h10 : ¬(1 : ℚ) ≤ 0 := by norm_num
  simp [hmv, hfr, h10]

/-- Processing an on-target, not-yet-done, stationary agent with an
effective DO_NOTHING marks it done without moving it. -/
theorem processOne_idle_done (g : Grid) (st : StepState) (i : Nat) (act : Option Int)
    (hdone : st.dones.getD i false = false)
    (htar : (st.agents.getD i defaultAgent).position = (st.agents.getD i defaultAgent).target)
    (hmv : (st.agents.getD i defaultAgent).moving = false)
    (hfr : (st.agents.getD i defaultAgent).fraction = 0)
    (hact : coerceAction act = 0)
    (hlen : i < st.agents.length) (hdlen : i < st.dones.length) :
    (processOne g st i act).dones.getD i false = true ∧
    ((processOne g st i act).agents.getD i defaultAgent).position =
      (st.agents.getD i defaultAgent).position := by
  unfold processOne
  dsimp only
  rw [if_neg (by simp only [hdone]; decide)]
  dsimp only
  set a0 := st.agents.getD i defaultAgent with ha0
  set a1 : Agent := { a0 with oldDirection := a0.direction, oldPosition := a0.position }
    with ha1
  rw [processAgent_idle g (st.agents.set i a1) act a1 (show a1.moving = false from hmv)
    (show a1.fraction = 0 from hfr) hact]
  rw [if_pos (show a1.position = a1.target from htar)]
  constructor
  · exact listGetDSetSelf _ _ _ _ hdlen
  · rw [listGetDSetSelf _ _ _ _ hlen]

theorem stepLoop_idle_done (g : Grid) (acts : Nat → Option Int) (i : Nat)
    (hact : coerceAction (acts i) = 0) (n : Nat) (st : StepState)
    (htar : (st.agents.getD i defaultAgent).position = (st.agents.getD i defaultAgent).target)
    (hmv : (st.agents.getD i defaultAgent).moving = false)
    (hfr : (st.agents.getD i defaultAgent).fraction = 0)
    (hdone : st.dones.getD i false = false)
    (hlen : i < st.agents.length) (hdlen : i < st.dones.length) :
    (n ≤ i →
      (stepLoop g acts st n).agents.getD i defaultAgent = st.agents.getD i defaultAgent ∧
      (stepLoop g acts st n).dones.getD i false = false) ∧
    (i < n →
      (stepLoop g acts st n).dones.getD i false = true ∧
      ((stepLoop g acts st n).agents.getD i defaultAgent).position =
        (st.agents.getD i defaultAgent).position) := by
  induction n with
  | zero => exact ⟨fun _ => ⟨rfl, hdone⟩, fun hlt => absurd hlt (Nat.not_lt_zero i)⟩
  | succ m ih =>
    constructor
    · intro hle
      have hmne : m ≠ i := by omega
      have hf := processOne_frame g (stepLoop g acts st m) m (acts m) i
        (fun hh => hmne hh.symm)
      rw [stepLoop_succ]
      have ihle := ih.1 (by omega)
      exact ⟨hf.1.trans ihle.1, hf.2.1.trans ihle.2⟩
    · intro hlt
      rcases Nat.lt_succ_iff_lt_or_eq.1 hlt with hlt2 | heq
      · have hmne : m ≠ i := by omega
        have hf := processOne_frame g (stepLoop g acts st m) m (acts m) i
          (fun hh => hmne hh.symm)
        rw [stepLoop_succ]
        rcases ih.2 hlt2 with ⟨hd, hp⟩
        exact ⟨hf.2.1 ▸ hd, hf.1 ▸ hp⟩
      · subst heq
        rw [stepLoop_succ]
        have ihag := (ih.1 (le_refl i)).1
        have ihdn := (ih.1 (le_refl i)).2
        have hlens := stepLoop_lengths g acts i st
        have hkey := processOne_idle_done g (stepLoop g acts st i) i (acts i)
          ihdn (ihag ▸ htar) (ihag ▸ hmv) (ihag ▸ hfr) hact
          (hlens.1 ▸ hlen) (hlens.2.1 ▸ hdlen)
        exact ⟨hkey.1, hkey.2.trans (congrArg Agent.position ihag)⟩

/-- C10: an agent already standing on its target but not yet marked done
(stationary, at a cell boundary) that receives DO_NOTHING or no action in
a `step` call of a running episode is marked individually done in that
same call, without moving. -/
theorem step_on_target_marked_done (g : Grid) (s : EnvState) (acts : Nat → Option Int)
    (i : Nat) (hall : s.allDone = false) (hlen : i < s.agents.length)
    (hdlen : s.dones.length = s.agents.length)
    (htar : (s.agents.getD i defaultAgent).position = (s.agents.getD i defaultAgent).target)
    (hdone : s.dones.getD i false = false)
    (hmv : (s.agents.getD i defaultAgent).moving = false)
    (hfr : (s.agents.getD i defaultAgent).fraction = 0)
    (hact : acts i = none ∨ acts i = some 0) :
    (step g s acts).1.dones.getD i false = true ∧
    ((step g s acts).1.agents.getD i defaultAgent).position =
      (s.agents.getD i defaultAgent).position := by
  have hact0 : coerceAction (acts i) = 0 := by
    rcases hact with h | h <;> simp [h, coerceAction]
  unfold step
  dsimp only
  rw [if_neg (by simp [hall])]
  have hkey := (stepLoop_idle_done g acts i hact0 s.agents.length
    ⟨s.agents, s.dones, List.replicate s.agents.length 0⟩ htar hmv hfr hdone hlen
    (by simpa [hdlen] using hlen)).2 hlen
  split <;> exact hkey

/-- Witness for C10: the corridor agent spawned on its target, given no
action, is done after one tick and has not moved. -/
theorem step_on_target_marked_done_witness :
    (step corridorGrid onTargetState (fun _ => none)).1.dones.getD 0 false = true ∧
    ((step corridorGrid onTargetState (fun _ => none)).1.agents.getD 0
      defaultAgent).position = (onTargetState.agents.getD 0 defaultAgent).position :=
  step_on_target_marked_done corridorGrid onTargetState (fun _ => none) 0 rfl
    (by decide) rfl rfl rfl rfl rfl (Or.inl rfl)

end Flatland

namespace Flatland

/-- C5 counterexample: an agent whose chosen action is invalid (LEFT with
no legal exits, forward fallback also invalid) hits the `continue` path:
it is not done, its position differs from its target, yet its reward for
the tick is 0 rather than the claimed step penalty times speed (= -1). -/
theorem step_invalid_action_skips_penalty :
    (step blockedGrid blockedState (fun _ => some 1)).2.getD 0 0 = 0 ∧
    (step blockedGrid blockedState (fun _ => some 1)).1.dones.getD 0 false = false ∧
    ((step blockedGrid blockedState (fun _ => some 1)).1.agents.getD 0
      defaultAgent).position ≠
      ((step blockedGrid blockedState (fun _ => some 1)).1.agents.getD 0
        defaultAgent).target ∧
    stepPenalty * ((step blockedGrid blockedState (fun _ => some 1)).1.agents.getD 0
      defaultAgent).speed = -1 := by
  with_unfolding_all decide

/-- C5 (amended): in the per-agent loop of a running episode, an agent
not already done is either marked done (position equals target, no step
penalty), or accrues the step penalty times its speed, or — the case the
original claim misses — is forced to stop by an invalid action and its
tick ends early with its reward unchanged (the invalid-action and stop
penalties are zero) and without the done check. -/
theorem processOne_reward_done_cases (g : Grid) (st : StepState) (i : Nat) (act : Option Int)
    (hdone : st.dones.getD i false = false) (hlen : i < st.agents.length)
    (hdlen : i < st.dones.length) (hrlen : i < st.rewards.length) :
    (((processOne g st i act).agents.getD i defaultAgent).position =
       ((processOne g st i act).agents.getD i defaultAgent).target ∧
     (processOne g st i act).dones.getD i false = true ∧
     (processOne g st i act).rewards.getD i 0 = st.rewards.getD i 0) ∨
    (((processOne g st i act).agents.getD i defaultAgent).position ≠
       ((processOne g st i act).agents.getD i defaultAgent).target ∧
     (processOne g st i act).dones.getD i false = false ∧
     (processOne g st i act).rewards.getD i 0 =
       st.rewards.getD i 0 +
         stepPenalty * ((processOne g st i act).agents.getD i defaultAgent).speed) ∨
    (((processOne g st i act).agents.getD i defaultAgent).moving = false ∧
     ((processOne g st i act).agents.getD i defaultAgent).position =
       (st.agents.getD i defaultAgent).position ∧
     (processOne g st i act).dones.getD i false = false ∧
     (processOne g st i act).rewards.getD i 0 = st.rewards.getD i 0) := by
  unfold processOne
  dsimp only
  rw [if_neg (by simp only [hdone]; decide)]
  dsimp only
  set a0 := st.agents.getD i defaultAgent with ha0
  set a1 : Agent := { a0 with oldDirection := a0.direction, oldPosition := a0.position }
    with ha1
  rcases processAgent_outcome g (st.agents.set i a1) act a1 with
    ⟨hfs, hdn, hrw, hmv, hps⟩ | ⟨hfs, hdn, hps, hrw⟩ | ⟨hfs, hdn, hps, hrw⟩
  · refine Or.inr (Or.inr ?_)
    rw [hdn]
    simp only [if_neg (by decide : ¬false = true)]
    refine ⟨?_, ?_, hdone, ?_⟩
    · rw [listGetDSetSelf _ _ _ _ hlen, hmv]
    · rw [listGetDSetSelf _ _ _ _ hlen, hps]
    · rw [listGetDSetSelf _ _ _ _ hrlen, hrw, add_zero]
  · refine Or.inl ?_
    rw [hdn]
    simp only [if_pos rfl]
    refine ⟨?_, ?_, ?_⟩
    · rw [listGetDSetSelf _ _ _ _ hlen]
      exact hps
    · exact listGetDSetSelf st.dones i true false hdlen
    · rw [listGetDSetSelf _ _ _ _ hrlen, hrw, add_zero]
  · refine Or.inr (Or.inl ?_)
    rw [hdn]
    simp only [if_neg (by decide : ¬false = true)]
    refine ⟨?_, hdone, ?_⟩
    · rw [listGetDSetSelf _ _ _ _ hlen]
      exact hps
    · rw [listGetDSetSelf _ _ _ _ hrlen, hrw, listGetDSetSelf _ _ _ _ hlen]

/-- Witness for C5 (amended) on the corridor agent given no action:
it accrues the step penalty and is not marked done. -/
theorem processOne_reward_done_cases_witness :
    (((processOne corridorGrid ⟨[corridorAgent], [false], [0]⟩ 0 none).agents.getD 0
        defaultAgent).position =
       ((processOne corridorGrid ⟨[corridorAgent], [false], [0]⟩ 0 none).agents.getD 0
        defaultAgent).target ∧
     (processOne corridorGrid ⟨[corridorAgent], [false], [0]⟩ 0 none).dones.getD 0 false =
       true ∧
     (processOne corridorGrid ⟨[corridorAgent], [false], [0]⟩ 0 none).rewards.getD 0 0 =
       (⟨[corridorAgent], [false], [0]⟩ : StepState).rewards.getD 0 0) ∨
    (((processOne corridorGrid ⟨[corridorAgent], [false], [0]⟩ 0 none).agents.getD 0
        defaultAgent).position ≠
       ((processOne corridorGrid ⟨[corridorAgent], [false], [0]⟩ 0 none).agents.getD 0
        defaultAgent).target ∧
     (processOne corridorGrid ⟨[corridorAgent], [false], [0]⟩ 0 none).dones.getD 0 false =
       false ∧
     (processOne corridorGrid ⟨[corridorAgent], [false], [0]⟩ 0 none).rewards.getD 0 0 =
       (⟨[corridorAgent], [false], [0]⟩ : StepState).rewards.getD 0 0 +
         stepPenalty * ((processOne corridorGrid ⟨[corridorAgent], [false], [0]⟩ 0
           none).agents.getD 0 defaultAgent).speed) ∨
    (((processOne corridorGrid ⟨[corridorAgent], [false], [0]⟩ 0 none).agents.getD 0
        defaultAgent).moving = false ∧
     ((processOne corridorGrid ⟨[corridorAgent], [false], [0]⟩ 0 none).agents.getD 0
        defaultAgent).position =
       ((⟨[corridorAgent], [false], [0]⟩ : StepState).agents.getD 0 defaultAgent).position ∧
     (processOne corridorGrid ⟨[corridorAgent], [false], [0]⟩ 0 none).dones.getD 0 false =
       false ∧
     (processOne corridorGrid ⟨[corridorAgent], [false], [0]⟩ 0 none).rewards.getD 0 0 =
       (⟨[corridorAgent], [false], [0]⟩ : StepState).rewards.getD 0 0) :=
  processOne_reward_done_cases corridorGrid ⟨[corridorAgent], [false], [0]⟩ 0 none rfl
    (by decide) (by decide) (by decide)

end Flatland

namespace Flatland

/-- On the 2×2 loop, the corridor walk cycles through its four states and
never meets a target, dead end, switch or empty cell: it returns `none`
for every fuel, from any flag state, for any agent/target tables. -/
theorem loopWalk_none (hA hT : Int × Int → Bool) (fuel : Nat) :
    ∀ oA oT, exploreWalk loopGrid hA hT (3, 3) fuel (0, 0) 0 oA oT = none ∧
      exploreWalk loopGrid hA hT (3, 3) fuel (0, 1) 1 oA oT = none ∧
      exploreWalk loopGrid hA hT (3, 3) fuel (1, 1) 2 oA oT = none ∧
      exploreWalk loopGrid hA hT (3, 3) fuel (1, 0) 3 oA oT = none := by
  induction fuel with
  | zero => exact fun _ _ => ⟨rfl, rfl, rfl, rfl⟩
  | succ m ih =>
    intro oA oT
    have e0 : exploreWalk loopGrid hA hT (3, 3) (m + 1) (0, 0) 0 oA oT =
        exploreWalk loopGrid hA hT (3, 3) m (0, 1) 1 (oA || hA (0, 0)) (oT || hT (0, 0)) := rfl
    have e1 : exploreWalk loopGrid hA hT (3, 3) (m + 1) (0, 1) 1 oA oT =
        exploreWalk loopGrid hA hT (3, 3) m (1, 1) 2 (oA || hA (0, 1)) (oT || hT (0, 1)) := rfl
    have e2 : exploreWalk loopGrid hA hT (3, 3) (m + 1) (1, 1) 2 oA oT =
        exploreWalk loopGrid hA hT (3, 3) m (1, 0) 3 (oA || hA (1, 1)) (oT || hT (1, 1)) := rfl
    have e3 : exploreWalk loopGrid hA hT (3, 3) (m + 1) (1, 0) 3 oA oT =
        exploreWalk loopGrid hA hT (3, 3) m (0, 0) 0 (oA || hA (1, 0)) (oT || hT (1, 0)) := rfl
    exact ⟨e0 ▸ (ih _ _).2.1, e1 ▸ (ih _ _).2.2.1, e2 ▸ (ih _ _).2.2.2, e3 ▸ (ih _ _).1⟩

end Flatland

namespace Flatland

/-- C3 counterexample: the claim asserts a fixed flat observation length
for every agent, grid topology and state, but on the 2×2 closed loop the
branch walk of `get` never terminates (for every walk fuel the embedding
returns `none`): no observation of any length is produced. -/
theorem getObs_loop_diverges : getObsLoopDiverges := by
  unfold getObsLoopDiverges
  intro fuel
  have hw := (loopWalk_none (fun p => List.any [] (fun q => decide (q = p)))
    (fun p => List.any [] (fun q => decide (q = p))) fuel false false).2.1
  have hkey : exploreBranch loopGrid zeroDm
      (fun p => List.any [] (fun q => decide (q = p)))
      (fun p => List.any [] (fun q => decide (q = p))) (3, 3) fuel 2
      (newPosition (0, 0) ((0 + 5) % 4)) ((0 + 5) % 4) = none := by
    show exploreBranch loopGrid zeroDm _ _ (3, 3) fuel (1 + 1) (0, 1) 1 = none
    rw [show (1 + 1 : Nat) = Nat.succ 1 from rfl]
    rw [exploreBranch]
    rw [hw]
  unfold getObs
  dsimp only
  have h3 : transBit loopGrid 0 0 0 ((0 + 3) % 4) = false := by decide
  have h4 : transBit loopGrid 0 0 0 ((0 + 4) % 4) = false := by decide
  have h5 : transBit loopGrid 0 0 0 ((0 + 5) % 4) = true := by decide
  simp only [h3, h4, h5, if_true, if_false, Bool.false_eq_true, hkey]
  rfl

end Flatland

namespace Flatland

theorem padCount_succ (k : Nat) : padCount (k + 1) = 1 + 4 * padCount k := by
  have h1 : ∀ n, padCount (n + 1) = padCount n + 4 ^ n := by
    intro n
    unfold padCount
    rw [List.range_succ, List.map_append, List.sum_append]
    simp
  have h2 : ∀ n, 3 * padCount n + 1 = 4 ^ n := by
    intro n
    induction n with
    | zero => decide
    | succ m ihm =>
      rw [h1 m, pow_succ]
      omega
  have h3 := h2 k
  rw [h1 k]
  omega

theorem bind4_length {c1 c2 c3 c4 : Option (List FVal)} {node l : List FVal} {k : Nat}
    (h : (c1.bind fun b1 => c2.bind fun b2 => c3.bind fun b3 => c4.bind fun b4 =>
        some (node ++ b1 ++ b2 ++ b3 ++ b4)) = some l)
    (n5 : node.length = 5)
    (h1 : ∀ x, c1 = some x → x.length = k) (h2 : ∀ x, c2 = some x → x.length = k)
    (h3 : ∀ x, c3 = some x → x.length = k) (h4 : ∀ x, c4 = some x → x.length = k) :
    l.length = 5 + 4 * k := by
  cases c1 with
  | none => simp [Option.bind] at h
  | some x1 =>
    cases c2 with
    | none => simp [Option.bind] at h
    | some x2 =>
      cases c3 with
      | none => simp [Option.bind] at h
      | some x3 =>
        cases c4 with
        | none => simp [Option.bind] at h
        | some x4 =>
          simp only [Option.some_bind', Option.some.injEq] at h
          have hl := congrArg List.length h
          simp only [List.length_append, n5, h1 x1 rfl, h2 x2 rfl, h3 x3 rfl, h4 x4 rfl]
            at hl
          omega

theorem exploreBranch_length (g : Grid) (dm : Int × Int → Nat → FVal)
    (hA hT : Int × Int → Bool) (t : Int × Int) (fuel : Nat) :
    ∀ budget pos dir l, exploreBranch g dm hA hT t fuel budget pos dir = some l →
      l.length = 5 * padCount budget := by
  intro budget
  induction budget with
  | zero =>
    intro pos dir l h
    rw [exploreBranch] at h
    simp only [Option.some.injEq] at h
    rw [← h]
    rfl
  | succ b ihb =>
    intro pos dir l h
    rw [exploreBranch] at h
    cases hwk : exploreWalk g hA hT t fuel pos dir false false with
    | none => rw [hwk] at h; simp at h
    | some w =>
      rw [hwk] at h
      dsimp only at h
      have hchild : ∀ bd x,
          (if w.isDeadEnd ∧ transBit g w.position.1 w.position.2 w.direction ((bd + 2) % 4) then
            exploreBranch g dm hA hT t fuel b (newPosition w.position ((bd + 2) % 4))
              ((bd + 2) % 4)
          else if w.isSwitch ∧ transBit g w.position.1 w.position.2 w.direction bd then
            exploreBranch g dm hA hT t fuel b (newPosition w.position bd) bd
          else some (padRun b)) = some x → x.length = 5 * padCount b := by
        intro bd x
        split
        · exact ihb _ _ x
        · split
          · exact ihb _ _ x
          · intro hx
            simp only [Option.some.injEq] at hx
            rw [← hx]
            simp [padRun]
      have hnode : ∀ node : List FVal,
          (if w.isTarget then
            some [FVal.fin 0, boolF w.otherTarget, boolF w.otherAgent, FVal.fin 0, FVal.fin 0]
          else (dmRead g dm w.position w.direction).map
            (fun v => [FVal.fin 0, boolF w.otherTarget, boolF w.otherAgent, FVal.fin 0, v]))
            = some node → node.length = 5 := by
        intro node
        split
        · intro hx
          simp only [Option.some.injEq] at hx
          rw [← hx]
          rfl
        · intro hx
          rcases Option.map_eq_some'.mp hx with ⟨v, _, hv⟩
          rw [← hv]
          rfl
      rcases Option.bind_eq_some.mp h with ⟨node, hn, h2⟩
      have := bind4_length h2 (hnode node hn) (hchild _) (hchild _) (hchild _) (hchild _)
      rw [this, padCount_succ]
      ring

end Flatland

namespace Flatland

/-- C3 (amended): for every agent, grid topology and agent state on which
`get` returns an observation at all — the corridor walk of the tree
observation builder terminates and no node's distance-map read indexes
past the positive grid edge (numpy `IndexError`); the embedding returns
`some` exactly then — the flattened observation of `get` with
`max_depth = d` has length exactly `5 * Σ_{i=0}^{d} 4^i`, independent of
the actual branching: absent branches are padded by runs of -inf nodes of
exactly the size of the missing full subtree. -/
theorem getObs_length_fixed (g : Grid) (dm : Int × Int → Nat → FVal)
    (agentPositions targets : List (Int × Int)) (target : Int × Int)
    (maxDepth fuel : Nat) (pos : Int × Int) (dir : Nat) (obs : List FVal)
    (h : getObs g dm agentPositions targets target maxDepth fuel pos dir = some obs) :
    obs.length = 5 * ((List.range (maxDepth + 1)).map (fun i => 4 ^ i)).sum := by
  unfold getObs at h
  dsimp only at h
  have hchild : ∀ bd x,
      (if transBit g pos.1 pos.2 dir bd then
        exploreBranch g dm (fun p => agentPositions.any (fun q => decide (q = p)))
          (fun p => targets.any (fun q => decide (q = p))) target fuel maxDepth
          (newPosition pos bd) bd
      else some (padRun maxDepth)) = some x → x.length = 5 * padCount maxDepth := by
    intro bd x
    split
    · exact exploreBranch_length g dm _ _ target fuel maxDepth _ bd x
    · intro hx
      simp only [Option.some.injEq] at hx
      rw [← hx]
      simp [padRun]
  rcases Option.bind_eq_some.mp h with ⟨rootV, hroot, h2⟩
  have hnode : ([FVal.fin 0, FVal.fin 0, FVal.fin 0, FVal.fin 0, rootV]).length = 5 := rfl
  have hlen := bind4_length h2 hnode (hchild _) (hchild _) (hchild _) (hchild _)
  rw [hlen]
  have hpc : padCount (maxDepth + 1) =
      ((List.range (maxDepth + 1)).map (fun i => 4 ^ i)).sum := rfl
  rw [← hpc, padCount_succ]
  ring

/-- Witness for C3 (amended): on the corridor with `max_depth = 2`, the
walk terminates and the observation has length `5 * (1 + 4 + 16) = 105`. -/
theorem getObs_length_fixed_witness :
    ((getObs corridorGrid zeroDm [] [] (0, 0) 2 10 (0, 1) 1).getD []).length =
      5 * ((List.range 3).map (fun i => 4 ^ i)).sum :=
  getObs_length_fixed corridorGrid zeroDm [] [] (0, 0) 2 10 (0, 1) 1
    ((getObs corridorGrid zeroDm [] [] (0, 0) 2 10 (0, 1) 1).getD []) (by decide)

end Flatland
